import Mathlib

set_option linter.unusedVariables false

/-!
Verification of the response-normalization pipeline of the jesus-letters
server (`src/server/routes/ai.js`).  JavaScript strings are modelled as
`List Char`; the dynamically-typed values flowing out of `JSON.parse` are
modelled by the inductive `JVal`; every regex used by the source is
embedded as a dedicated scanning function whose behaviour matches the
concrete regex (leftmost match, greedy or lazy as written, `g`/`s` flags
as written).  Network calls of the two providers are modelled as
environment-supplied outcomes, the only part of the code that a shallow
embedding cannot execute.
-/

namespace JL

/-- JavaScript strings, as lists of characters.  JS `.length` counts UTF-16
units; every character appearing in this code base lies in the BMP, where
that count agrees with the codepoint count used here. -/
abbrev Str := List Char

/-- Embed a Lean string literal. -/
def str (s : String) : Str := s.data

/-- The whitespace class of JS `trim` and of the regex class `\s`
(space, tab, line feed, carriage return, vertical tab, form feed,
no-break space, BOM). -/
def jsWs (c : Char) : Bool :=
  c == ' ' || c == '\t' || c == '\n' || c == '\r' ||
  c == '\x0b' || c == '\x0c' || c.val == 0xa0 || c.val == 0xfeff

/-- JS `String.prototype.trim`, left part. -/
def trimL (s : Str) : Str := s.dropWhile jsWs

/-- JS `String.prototype.trim`, right part. -/
def trimR (s : Str) : Str := (s.reverse.dropWhile jsWs).reverse

/-- JS `String.prototype.trim`. -/
def trim (s : Str) : Str := trimR (trimL s)

/-- `pfx p s` holds when `p` is a leading piece of `s` (used for
`startsWith` and as the primitive of all substring scans). -/
def pfx : Str → Str → Bool
  | [], _ => true
  | _ :: _, [] => false
  | a :: as, b :: bs => a == b && pfx as bs

/-- Index of the first occurrence of `p` in `s` (JS `indexOf` for a
substring, with `none` for `-1`). -/
def findSub (p : Str) : Str → Option Nat
  | [] => if pfx p [] then some 0 else none
  | c :: cs => if pfx p (c :: cs) then some 0 else (findSub p (c :: cs).tail).map (· + 1)

/-- JS `String.prototype.includes`. -/
def containsSub (p s : Str) : Bool := (findSub p s).isSome

/-- JS `indexOf` for a single character. -/
def idxOfChar (c : Char) : Str → Option Nat
  | [] => none
  | b :: bs => if b == c then some 0 else (idxOfChar c bs).map (· + 1)

/-- JS `lastIndexOf` for a single character. -/
def lastIdxOfChar (c : Char) (s : Str) : Option Nat :=
  (idxOfChar c s.reverse).map (fun i => s.length - 1 - i)

/-- Number of occurrences of a character (the `(s.match(/\{/g) || []).length`
idiom of the source). -/
def countc (c : Char) : Str → Nat
  | [] => 0
  | b :: bs => (if b == c then 1 else 0) + countc c bs

/-- JS `String.prototype.substring(0, n)`. -/
def takeN (n : Nat) (s : Str) : Str := s.take n

/-- Lower-case an ASCII letter (for the case-insensitive `json` fence
markers). -/
def lowerC (c : Char) : Char :=
  if 'A' ≤ c ∧ c ≤ 'Z' then Char.ofNat (c.toNat + 32) else c

/-- Case-insensitive leading-piece test (regex `i` flag on a literal). -/
def pfxCI (p s : Str) : Bool := pfx (p.map lowerC) (s.map lowerC |>.take p.length)

/-- Scanner of `replaceAllLit`: the counter says how many characters of an
already-replaced stretch remain to be skipped, keeping the recursion
structural on the string. -/
def replaceAllLitGo (pat rep : Str) : Nat → Str → Str
  | _, [] => []
  | n + 1, _ :: cs => replaceAllLitGo pat rep n cs
  | 0, c :: cs =>
    if pat ≠ [] ∧ pfx pat (c :: cs) then
      rep ++ replaceAllLitGo pat rep (pat.length - 1) cs
    else
      c :: replaceAllLitGo pat rep 0 cs

/-- JS `String.prototype.replace` with a global literal pattern and a literal
replacement: scan left to right, replace each occurrence, continue after the
replaced stretch (never rescanning it). -/
def replaceAllLit (pat rep s : Str) : Str := replaceAllLitGo pat rep 0 s

/-- Values of the dynamically-typed JS world: everything `JSON.parse` can
produce, plus `jnull` for JS `null`.  A JSON number is kept as its integer
part (`jnum`); no behaviour verified here depends on a non-integral
number.  Absent fields (`undefined`) are modelled by `Option JVal` at use
sites. -/
inductive JVal where
  | jstr (s : Str)
  | jnum (n : Int)
  | jbool (b : Bool)
  | jnull
  | jarr (elems : List JVal)
  | jobj (fields : List (Str × JVal))

mutual

/-- Structural equality of `JVal`s (the `SameValueZero` comparison used by
the `Set` in `enhanceBiblicalReferences`, restricted to the values that can
actually occur there). -/
def jbeq : JVal → JVal → Bool
  | .jstr a, .jstr b => a == b
  | .jnum a, .jnum b => a == b
  | .jbool a, .jbool b => a == b
  | .jnull, .jnull => true
  | .jarr xs, .jarr ys => jbeqList xs ys
  | .jobj xs, .jobj ys => jbeqFields xs ys
  | _, _ => false

def jbeqList : List JVal → List JVal → Bool
  | [], [] => true
  | x :: xs, y :: ys => jbeq x y && jbeqList xs ys
  | _, _ => false

def jbeqFields : List (Str × JVal) → List (Str × JVal) → Bool
  | [], [] => true
  | (k₁, v₁) :: xs, (k₂, v₂) :: ys => k₁ == k₂ && jbeq v₁ v₂ && jbeqFields xs ys
  | _, _ => false

end

/-- Equality on possibly-`undefined` values (the `Set.has` test where the
stored key may be `undefined`). -/
def optJbeq : Option JVal → Option JVal → Bool
  | none, none => true
  | some a, some b => jbeq a b
  | _, _ => false

/-- JS truthiness of a possibly-`undefined` value. -/
def truthy : Option JVal → Bool
  | none => false
  | some (.jstr s) => s ≠ []
  | some (.jnum n) => n ≠ 0
  | some (.jbool b) => b
  | some .jnull => false
  | some (.jarr _) => true
  | some (.jobj _) => true

/-- JS property read `v[k]`: on an object the last binding wins (as after
`JSON.parse`); on any other non-null value the property is absent
(`undefined`).  Reads on `null` throw and are guarded at every use site. -/
def jget (v : JVal) (k : Str) : Option JVal :=
  match v with
  | .jobj fields => (fields.reverse.find? (fun kv => kv.1 == k)).map (·.2)
  | _ => none

/-- JS `v.length` as a value: defined for strings and arrays, `undefined`
otherwise (so that `undefined < 5` is `false`, as in JS). -/
def lengthProp : JVal → Option Nat
  | .jstr s => some s.length
  | .jarr xs => some xs.length
  | _ => none

/-- JS spread `[...v]`: arrays spread to their elements, strings to their
characters (as one-character strings); any other value raises a
`TypeError`. -/
def spreadE : JVal → Except Str (List JVal)
  | .jarr xs => .ok xs
  | .jstr s => .ok (s.map (fun c => .jstr [c]))
  | _ => .error (str "TypeError: value is not iterable")

/-- The whitespace accepted between JSON tokens by `JSON.parse`. -/
def skipJsonWs (s : Str) : Str :=
  s.dropWhile (fun c => c == ' ' || c == '\t' || c == '\n' || c == '\r')

/-- Value of a hexadecimal digit. -/
def hexVal (c : Char) : Option Nat :=
  if '0' ≤ c ∧ c ≤ '9' then some (c.toNat - '0'.toNat)
  else if 'a' ≤ c ∧ c ≤ 'f' then some (c.toNat - 'a'.toNat + 10)
  else if 'A' ≤ c ∧ c ≤ 'F' then some (c.toNat - 'A'.toNat + 10)
  else none

/-- ASCII decimal digit test. -/
def isDig (c : Char) : Bool := '0' ≤ c ∧ c ≤ '9'

/-- Body of a JSON string, after the opening quote: returns the decoded
content and the remainder after the closing quote.  Raw control characters
are rejected, exactly as `JSON.parse` rejects them (which is why the source
has to escape newlines in `fixJsonFormat` before re-parsing). -/
def jparseStrF : Nat → Str → Option (Str × Str)
  | 0, _ => none
  | _ + 1, [] => none
  | fuel + 1, c :: cs =>
    if c == '"' then some ([], cs)
    else if c == '\\' then
      match cs with
      | [] => none
      | e :: es =>
        if e == 'u' then
          match es with
          | a :: b :: c2 :: d :: rest =>
            match hexVal a, hexVal b, hexVal c2, hexVal d with
            | some ha, some hb, some hc, some hd =>
              (jparseStrF fuel rest).map
                (fun p => (Char.ofNat (((ha * 16 + hb) * 16 + hc) * 16 + hd) :: p.1, p.2))
            | _, _, _, _ => none
          | _ => none
        else
          let dec : Option Char :=
            if e == '"' then some '"'
            else if e == '\\' then some '\\'
            else if e == '/' then some '/'
            else if e == 'b' then some '\x08'
            else if e == 'f' then some '\x0c'
            else if e == 'n' then some '\n'
            else if e == 'r' then some '\r'
            else if e == 't' then some '\t'
            else none
          match dec with
          | some ch => (jparseStrF fuel es).map (fun p => (ch :: p.1, p.2))
          | none => none
    else if c.val < 0x20 then none
    else (jparseStrF fuel cs).map (fun p => (c :: p.1, p.2))

/-- A JSON number token (strict `JSON.parse` grammar: optional minus, `0` or
a nonzero-led digit run, optional fraction, optional exponent).  The value
retained is the integer part; nothing verified here depends on more. -/
def jparseNum (s : Str) : Option (Int × Str) :=
  let (neg, s1) := match s with
    | '-' :: rest => (true, rest)
    | _ => (false, s)
  match s1 with
  | [] => none
  | c :: _ =>
    if ¬ isDig c then none
    else if c == '0' ∧ (s1.tail.headD ' ' |> isDig) then none
    else
      let ds := s1.takeWhile isDig
      let rest := s1.dropWhile isDig
      let n : Nat := ds.foldl (fun acc d => acc * 10 + (d.toNat - '0'.toNat)) 0
      let (okFrac, rest1) := match rest with
        | '.' :: r =>
          if (r.headD ' ' |> isDig) then (true, r.dropWhile isDig) else (false, rest)
        | _ => (true, rest)
      if ¬ okFrac then none
      else
        let (okExp, rest2) := match rest1 with
          | e :: r =>
            if e == 'e' ∨ e == 'E' then
              let r1 := match r with
                | '+' :: rr => rr
                | '-' :: rr => rr
                | _ => r
              if (r1.headD ' ' |> isDig) then (true, r1.dropWhile isDig) else (false, rest1)
            else (true, rest1)
          | _ => (true, rest1)
        if ¬ okExp then none
        else some ((if neg then -(n : Int) else (n : Int)), rest2)

mutual

/-- A JSON value (leading whitespace allowed); fuelled recursive descent.
The fuel passed at top level always suffices. -/
def jparseVal : Nat → Str → Option (JVal × Str)
  | 0, _ => none
  | fuel + 1, s =>
    match skipJsonWs s with
    | [] => none
    | c :: cs =>
      if c == '{' then
        match skipJsonWs cs with
        | '}' :: rest => some (.jobj [], rest)
        | other => (jparseMembers fuel other []).map (fun p => (JVal.jobj p.1, p.2))
      else if c == '[' then
        match skipJsonWs cs with
        | ']' :: rest => some (.jarr [], rest)
        | other => (jparseElems fuel other []).map (fun p => (JVal.jarr p.1, p.2))
      else if c == '"' then
        (jparseStrF (fuel + 1) cs).map (fun p => (JVal.jstr p.1, p.2))
      else if pfx (str "true") (c :: cs) then some (.jbool true, (c :: cs).drop 4)
      else if pfx (str "false") (c :: cs) then some (.jbool false, (c :: cs).drop 5)
      else if pfx (str "null") (c :: cs) then some (.jnull, (c :: cs).drop 4)
      else (jparseNum (c :: cs)).map (fun p => (JVal.jnum p.1, p.2))

/-- Members of a JSON object, first key expected at the head. -/
def jparseMembers : Nat → Str → List (Str × JVal) → Option (List (Str × JVal) × Str)
  | 0, _, _ => none
  | fuel + 1, s, acc =>
    match s with
    | '"' :: cs =>
      match jparseStrF (fuel + 1) cs with
      | none => none
      | some (key, rest) =>
        match skipJsonWs rest with
        | ':' :: rest1 =>
          match jparseVal fuel rest1 with
          | none => none
          | some (v, rest2) =>
            match skipJsonWs rest2 with
            | ',' :: rest3 => jparseMembers fuel (skipJsonWs rest3) (acc ++ [(key, v)])
            | '}' :: rest3 => some (acc ++ [(key, v)], rest3)
            | _ => none
        | _ => none
    | _ => none

/-- Elements of a JSON array, first element expected at the head. -/
def jparseElems : Nat → Str → List JVal → Option (List JVal × Str)
  | 0, _, _ => none
  | fuel + 1, s, acc =>
    match jparseVal fuel s with
    | none => none
    | some (v, rest) =>
      match skipJsonWs rest with
      | ',' :: rest1 => jparseElems fuel rest1 (acc ++ [v])
      | ']' :: rest1 => some (acc ++ [v], rest1)
      | _ => none

end

/-- `JSON.parse`, as a total function returning `none` where JS throws
`SyntaxError`. -/
def jsonParse (s : Str) : Option JVal :=
  match jparseVal (s.length * 2 + 8) s with
  | some (v, rest) => if skipJsonWs rest = [] then some v else none
  | none => none

/-- Escape one character as inside a `JSON.stringify` string literal. -/
def jescapeChar (c : Char) : Str :=
  if c == '"' then ['\\', '"']
  else if c == '\\' then ['\\', '\\']
  else if c == '\n' then ['\\', 'n']
  else if c == '\r' then ['\\', 'r']
  else if c == '\t' then ['\\', 't']
  else if c == '\x08' then ['\\', 'b']
  else if c == '\x0c' then ['\\', 'f']
  else if c.val < 0x20 then
    ['\\', 'u', '0', '0',
     (str "0123456789abcdef").getD (c.toNat / 16) '0',
     (str "0123456789abcdef").getD (c.toNat % 16) '0']
  else [c]

/-- Escape a whole string for `JSON.stringify`. -/
def jescape (s : Str) : Str := s.flatMap jescapeChar

mutual

/-- `JSON.stringify` (no indentation argument, as in the source). -/
def jsonStringify : JVal → Str
  | .jstr s => '"' :: (jescape s ++ ['"'])
  | .jnum n => str (toString n)
  | .jbool b => str (if b then "true" else "false")
  | .jnull => str "null"
  | .jarr xs => '[' :: (jsonStringifyList xs ++ [']'])
  | .jobj fs => '{' :: (jsonStringifyFields fs ++ ['}'])

def jsonStringifyList : List JVal → Str
  | [] => []
  | [x] => jsonStringify x
  | x :: y :: rest => jsonStringify x ++ ',' :: jsonStringifyList (y :: rest)

def jsonStringifyFields : List (Str × JVal) → Str
  | [] => []
  | [(k, v)] => '"' :: (jescape k ++ '"' :: ':' :: jsonStringify v)
  | (k, v) :: f :: rest =>
    ('"' :: (jescape k ++ '"' :: ':' :: jsonStringify v)) ++ ',' :: jsonStringifyFields (f :: rest)

end

/-- Regex `/^```+\s*json\s*/gi` (cleaning step of `parseResponse`): strip a
leading run of three or more backticks, optional whitespace, a
case-insensitive `json`, and trailing whitespace.  Anchored, so at most one
replacement happens despite the `g` flag. -/
def stripFenceStartA (s : Str) : Str :=
  let k := (s.takeWhile (· = '`')).length
  if k ≥ 3 then
    let r1 := (s.drop k).dropWhile jsWs
    if pfxCI (str "json") r1 then (r1.drop 4).dropWhile jsWs else s
  else s

/-- Regex `/\s*```+\s*$/g`: strip a trailing block of whitespace, three or
more backticks, and whitespace. -/
def stripFenceEndA (s : Str) : Str :=
  let r1 := s.reverse.dropWhile jsWs
  if (r1.takeWhile (· = '`')).length ≥ 3 then
    ((r1.dropWhile (· = '`')).dropWhile jsWs).reverse
  else s

/-- Regex `/```+json\s*/gi`: remove every run of three or more backticks
that is directly followed by a case-insensitive `json` (plus trailing
whitespace), anywhere in the string. -/
def removeFenceJsonGo : Nat → Str → Str
  | _, [] => []
  | n + 1, _ :: cs => removeFenceJsonGo n cs
  | 0, c :: cs =>
    if c = '`' then
      if 1 + (cs.takeWhile (· = '`')).length ≥ 3 ∧
          pfxCI (str "json") (cs.dropWhile (· = '`')) then
        removeFenceJsonGo ((cs.takeWhile (· = '`')).length + 4 +
          (((cs.dropWhile (· = '`')).drop 4).takeWhile jsWs).length) cs
      else '`' :: (cs.takeWhile (· = '`') ++
        removeFenceJsonGo (cs.takeWhile (· = '`')).length cs)
    else c :: removeFenceJsonGo 0 cs

def removeFenceJsonAll (s : Str) : Str := removeFenceJsonGo 0 s

/-- Regex `/```+/g`: remove every run of three or more backticks. -/
def removeBtRunsGo : Nat → Str → Str
  | _, [] => []
  | n + 1, _ :: cs => removeBtRunsGo n cs
  | 0, c :: cs =>
    if c = '`' then
      (if 1 + (cs.takeWhile (· = '`')).length ≥ 3 then []
       else '`' :: cs.takeWhile (· = '`')) ++
        removeBtRunsGo (cs.takeWhile (· = '`')).length cs
    else c :: removeBtRunsGo 0 cs

def removeBtRunsAll (s : Str) : Str := removeBtRunsGo 0 s

/-- Regex `/```json\s*/gi` (first repair step of `fixJsonFormat`): an exact
triple of backticks followed by case-insensitive `json` and whitespace.  In
a longer backtick run only the last three backticks can be part of a match,
so the surplus stays. -/
def removeFence3JsonGo : Nat → Str → Str
  | _, [] => []
  | n + 1, _ :: cs => removeFence3JsonGo n cs
  | 0, c :: cs =>
    if c = '`' then
      if 1 + (cs.takeWhile (· = '`')).length ≥ 3 ∧
          pfxCI (str "json") (cs.dropWhile (· = '`')) then
        List.replicate (1 + (cs.takeWhile (· = '`')).length - 3) '`' ++
          removeFence3JsonGo ((cs.takeWhile (· = '`')).length + 4 +
            (((cs.dropWhile (· = '`')).drop 4).takeWhile jsWs).length) cs
      else '`' :: (cs.takeWhile (· = '`') ++
        removeFence3JsonGo (cs.takeWhile (· = '`')).length cs)
    else c :: removeFence3JsonGo 0 cs

def removeFence3JsonAll (s : Str) : Str := removeFence3JsonGo 0 s

/-- Regex `/```\s*$/gi`: strip trailing whitespace and exactly three
backticks before it (surplus backticks of a longer run stay). -/
def stripFence3End (s : Str) : Str :=
  let r1 := s.reverse.dropWhile jsWs
  if (r1.takeWhile (· = '`')).length ≥ 3 then (r1.drop 3).reverse else s

/-- Regex `/```/g`: remove backtick triples left to right (a run of `k`
backticks keeps `k % 3` of them). -/
def removeBt3Go : Nat → Str → Str
  | _, [] => []
  | n + 1, _ :: cs => removeBt3Go n cs
  | 0, c :: cs =>
    if c = '`' then
      List.replicate ((1 + (cs.takeWhile (· = '`')).length) % 3) '`' ++
        removeBt3Go (cs.takeWhile (· = '`')).length cs
    else c :: removeBt3Go 0 cs

def removeBt3All (s : Str) : Str := removeBt3Go 0 s

/-- Regex `/\{[\s\S]*\}/`: the span from the first `{` to the last `}`,
when the latter comes after the former. -/
def braceSpan (s : Str) : Option Str :=
  match idxOfChar '{' s, lastIdxOfChar '}' s with
  | some i, some j => if i < j then some ((s.drop i).take (j - i + 1)) else none
  | _, _ => none

/-- Test of `/"<name>"\s*:\s*"[^"]*$/` (`completeIncompleteJson`): some
occurrence of the quoted field name is followed by a colon amid whitespace
and an opening quote with no closing quote before the end of the text. -/
def unterminatedFieldAfter (name : Str) : Str → Bool
  | [] => false
  | c :: cs =>
    (if pfx ('"' :: (name ++ ['"'])) (c :: cs) then
       match ((c :: cs).drop (name.length + 2)).dropWhile jsWs with
       | ':' :: a2 =>
         match a2.dropWhile jsWs with
         | '"' :: a3 => ¬ a3.contains '"'
         | _ => false
       | _ => false
     else false) || unterminatedFieldAfter name cs

/-- Test of `/"biblicalReferences"\s*:\s*\[[^\]]*$/`: the references array
is opened but never closed before the end of the text. -/
def unterminatedRefsArray : Str → Bool
  | [] => false
  | c :: cs =>
    (if pfx (str "\"biblicalReferences\"") (c :: cs) then
       match ((c :: cs).drop 20).dropWhile jsWs with
       | ':' :: a2 =>
         match a2.dropWhile jsWs with
         | '[' :: a3 => ¬ a3.contains ']'
         | _ => false
       | _ => false
     else false) || unterminatedRefsArray cs

/-- The greedy escaped-string content `[^"]*(?:\\.[^"]*)*` followed by a
closing quote: consume characters, a backslash always taking the next
character with it, until an unescaped quote; the content is returned raw
(escapes kept as written). -/
def scanJsonStringContent : Str → Option (Str × Str)
  | [] => none
  | '"' :: cs => some ([], cs)
  | '\\' :: e :: es => (scanJsonStringContent es).map (fun p => ('\\' :: e :: p.1, p.2))
  | ['\\'] => none
  | c :: cs => (scanJsonStringContent cs).map (fun p => (c :: p.1, p.2))

/-- The `[:\s]*` of the chunk-reconstruction regexes: any mix of colons and
whitespace. -/
def skipColonWs (s : Str) : Str := s.dropWhile (fun c => c = ':' ∨ jsWs c)

/-- Regex `/"<name>"[:\s]*"([^"]*(?:\\.[^"]*)*)"/s` of
`reconstructCompleteJson`: the capture group of the leftmost match. -/
def extractFieldChunk (name : Str) : Str → Option Str
  | [] => none
  | c :: cs =>
    if pfx ('"' :: (name ++ ['"'])) (c :: cs) then
      match skipColonWs ((c :: cs).drop (name.length + 2)) with
      | '"' :: rest =>
        match scanJsonStringContent rest with
        | some p => some p.1
        | none => extractFieldChunk name cs
      | _ => extractFieldChunk name cs
    else extractFieldChunk name cs

/-- Regex `/"<name>":\s*"([^"]*(?:\\.[^"]*)*)"/` of
`extractStructuredContent` (the colon is required right after the name
here): the capture group of the leftmost match. -/
def extractFieldColon (name : Str) : Str → Option Str
  | [] => none
  | c :: cs =>
    if pfx ('"' :: (name ++ ['"', ':'])) (c :: cs) then
      match ((c :: cs).drop (name.length + 3)).dropWhile jsWs with
      | '"' :: rest =>
        match scanJsonStringContent rest with
        | some p => some p.1
        | none => extractFieldColon name cs
      | _ => extractFieldColon name cs
    else extractFieldColon name cs

/-- Regex `/"biblicalReferences"[:\s]*\[([^\]]*)\]/s`: the bracketed
content (up to the first `]`, which must exist) after the references field
name. -/
def extractRefsChunk : Str → Option Str
  | [] => none
  | c :: cs =>
    if pfx (str "\"biblicalReferences\"") (c :: cs) then
      match skipColonWs ((c :: cs).drop 20) with
      | '[' :: rest =>
        if rest.contains ']' then some (rest.takeWhile (· ≠ ']'))
        else extractRefsChunk cs
      | _ => extractRefsChunk cs
    else extractRefsChunk cs

/-- Regex `/"biblicalReferences":\s*\[(.*?)\]/` (no `s` flag, so the
content may not contain a newline; colon required). -/
def extractRefsChunkNoNl : Str → Option Str
  | [] => none
  | c :: cs =>
    if pfx (str "\"biblicalReferences\":") (c :: cs) then
      match ((c :: cs).drop 21).dropWhile jsWs with
      | '[' :: rest =>
        if (rest.takeWhile (fun x => x ≠ ']' ∧ x ≠ '\n')).length < rest.length ∧
            rest.getD (rest.takeWhile (fun x => x ≠ ']' ∧ x ≠ '\n')).length ' ' = ']' then
          some (rest.takeWhile (fun x => x ≠ ']' ∧ x ≠ '\n'))
        else extractRefsChunkNoNl cs
      | _ => extractRefsChunkNoNl cs
    else extractRefsChunkNoNl cs

/-- Regex `/"([^"]*)"/g` followed by stripping the quotes: the contents of
successive quote pairs. -/
def quotedTokensGo : Nat → Str → List Str
  | _, [] => []
  | n + 1, _ :: cs => quotedTokensGo n cs
  | 0, '"' :: cs =>
    if cs.contains '"' then
      cs.takeWhile (· ≠ '"') :: quotedTokensGo ((cs.takeWhile (· ≠ '"')).length + 1) cs
    else []
  | 0, _ :: cs => quotedTokensGo 0 cs

def quotedTokens (s : Str) : List Str := quotedTokensGo 0 s

/-- The literal-escape pass of `processQuotedContent`: regex `/\\n\\n+/g`
(a literal `\n` escape written twice, the second `n` repeatable) collapsed
to a single literal `\n`. -/
def collapseNNGo : Nat → Str → Str
  | _, [] => []
  | n + 1, _ :: cs => collapseNNGo n cs
  | 0, c :: cs =>
    if pfx (str "\\n\\n") (c :: cs) then
      str "\\n" ++ collapseNNGo (3 + (((c :: cs).drop 4).takeWhile (· = 'n')).length) cs
    else c :: collapseNNGo 0 cs

def collapseNN (s : Str) : Str := collapseNNGo 0 s

/-- The callback applied to each quoted stretch in `fixJsonFormat`:
`\r\n`, `\n`, `\r` become the two characters `\n`, tabs become `\t`, and
runs of literal `\n` escapes are collapsed. -/
def processQuotedContent (content : Str) : Str :=
  collapseNN
    (replaceAllLit (str "\t") (str "\\t")
      (replaceAllLit (str "\r") (str "\\n")
        (replaceAllLit (str "\n") (str "\\n")
          (replaceAllLit (str "\r\n") (str "\\n") content))))

/-- Regex `/"([^"]*?)"/g` with the callback above: pair up consecutive
quotes left to right and process each content; an unpaired final quote is
left alone. -/
def escapeNewlinesGo : Nat → Str → Str
  | _, [] => []
  | n + 1, _ :: cs => escapeNewlinesGo n cs
  | 0, '"' :: cs =>
    if cs.contains '"' then
      '"' :: (processQuotedContent (cs.takeWhile (· ≠ '"')) ++
        '"' :: escapeNewlinesGo ((cs.takeWhile (· ≠ '"')).length + 1) cs)
    else '"' :: cs
  | 0, c :: cs => c :: escapeNewlinesGo 0 cs

def escapeNewlinesInQuotes (s : Str) : Str := escapeNewlinesGo 0 s

/-- Regex `/,(\s*[}\]])/g` replaced by `$1`: drop a comma that is followed,
possibly after whitespace, by a closing brace or bracket; scanning resumes
after the closer. -/
def removeTrailingCommasGo : Nat → Str → Str
  | _, [] => []
  | n + 1, _ :: cs => removeTrailingCommasGo n cs
  | 0, ',' :: cs =>
    match cs.dropWhile jsWs with
    | c :: _ =>
      if c = '}' ∨ c = ']' then
        (cs.takeWhile jsWs ++ [c]) ++
          removeTrailingCommasGo ((cs.takeWhile jsWs).length + 1) cs
      else ',' :: removeTrailingCommasGo 0 cs
    | [] => ',' :: removeTrailingCommasGo 0 cs
  | 0, c :: cs => c :: removeTrailingCommasGo 0 cs

def removeTrailingCommas (s : Str) : Str := removeTrailingCommasGo 0 s

/-- The lookahead `(?=\s*[,\}])` of the unquoted-value regex. -/
def lookaheadCommaBrace (s : Str) : Bool :=
  match s.dropWhile jsWs with
  | c :: _ => c = ',' ∨ c = '}'
  | [] => false

/-- The lazy tail `[^,\}\]]*?` of the unquoted-value regex: extend the
shortest amount until the lookahead holds; the returned list is the
extension (`none` when no extension can satisfy the lookahead). -/
def lazyValueScan : Str → Option Str
  | [] => none
  | c :: cs =>
    if lookaheadCommaBrace (c :: cs) then some []
    else if c = ',' ∨ c = '}' ∨ c = ']' then none
    else (lazyValueScan cs).map (c :: ·)

/-- The number test `/^-?\d+(\.\d+)?$/` of the `fixJsonFormat` callback. -/
def numLit (v : Str) : Bool :=
  let v1 := match v with
    | '-' :: r => r
    | _ => v
  match v1.dropWhile isDig with
  | [] => v1 ≠ []
  | '.' :: fr => v1.takeWhile isDig ≠ [] ∧ fr ≠ [] ∧ fr.all isDig
  | _ => false

/-- Regex `/:\s*([^",\{\[\]\}\s][^,\}\]]*?)(?=\s*[,\}])/g` with the
callback quoting non-literal values: after a colon and whitespace, a value
not starting with a quote, comma, bracket, brace or whitespace is extended
lazily until a comma or closing brace is ahead; `true`, `false`, `null`
and numbers are kept, anything else is replaced by `: "<trimmed>"`. -/
def quoteUnquotedGo : Nat → Str → Str
  | _, [] => []
  | n + 1, _ :: cs => quoteUnquotedGo n cs
  | 0, ':' :: cs =>
    match cs.dropWhile jsWs with
    | f :: rest1 =>
      if f = '"' ∨ f = ',' ∨ f = '{' ∨ f = '[' ∨ f = ']' ∨ f = '}' ∨ jsWs f then
        ':' :: quoteUnquotedGo 0 cs
      else
        match lazyValueScan rest1 with
        | some ext =>
          if (fun tv => tv = str "true" ∨ tv = str "false" ∨ tv = str "null" ∨ numLit tv)
              (trim (f :: ext)) then
            (':' :: (cs.takeWhile jsWs ++ f :: ext)) ++
              quoteUnquotedGo ((cs.takeWhile jsWs).length + 1 + ext.length) cs
          else
            (str ": \"" ++ trim (f :: ext) ++ ['"']) ++
              quoteUnquotedGo ((cs.takeWhile jsWs).length + 1 + ext.length) cs
        | none => ':' :: quoteUnquotedGo 0 cs
    | [] => ':' :: quoteUnquotedGo 0 cs
  | 0, c :: cs => c :: quoteUnquotedGo 0 cs

def quoteUnquoted (s : Str) : Str := quoteUnquotedGo 0 s

/-- `reconstructCompleteJson` (source lines 551-594): pull the four fields
out of a chunked response by regex, fill canned defaults for whatever is
missing, and re-serialize the synthetic object. -/
def reconstructCompleteJson (response : Str) : Str :=
  let jesusLetter := (extractFieldChunk (str "jesusLetter") response).getD []
  let guidedPrayer := (extractFieldChunk (str "guidedPrayer") response).getD []
  let biblicalReferences := match extractRefsChunk response with
    | some content => quotedTokens content
    | none => []
  let coreMessage := (extractFieldChunk (str "coreMessage") response).getD []
  jsonStringify (JVal.jobj
    [ (str "jesusLetter", .jstr (if jesusLetter ≠ [] then jesusLetter
        else str "親愛的朋友，我聽見了你的心聲，我愛你，我與你同在。")),
      (str "guidedPrayer", .jstr (if guidedPrayer ≠ [] then guidedPrayer
        else str "親愛的天父，感謝你的愛和恩典，求你賜給我們平安和力量。")),
      (str "biblicalReferences", .jarr (if biblicalReferences.length > 0
        then biblicalReferences.map .jstr else [.jstr (str "約翰福音 3:16")])),
      (str "coreMessage", .jstr (if coreMessage ≠ [] then coreMessage
        else str "神愛你，祂必與你同在")) ])

/-- The quote-and-bracket closing steps of `completeIncompleteJson`
(source lines 600-618): trim, close clearly unterminated string fields,
close an unterminated references array. -/
def closeDangling (response : Str) : Str :=
  let c0 := trim response
  let c1 := if unterminatedFieldAfter (str "jesusLetter") c0 then c0 ++ ['"'] else c0
  let c2 := if unterminatedFieldAfter (str "guidedPrayer") c1 then c1 ++ ['"'] else c1
  let c3 := if unterminatedFieldAfter (str "coreMessage") c2 then c2 ++ ['"'] else c2
  if unterminatedRefsArray c3 then c3 ++ [']'] else c3

/-- `completeIncompleteJson` (source lines 597-630): close clearly
unterminated string fields and an unterminated references array, then
append as many closing braces as are missing. -/
def completeIncompleteJson (response : Str) : Str :=
  let c4 := closeDangling response
  c4 ++ List.replicate (countc '{' c4 - countc '}' c4) '}'

/-- `accumulateJsonChunks` (source lines 523-548): detect a chunked
response or an unterminated object and repair accordingly. -/
def accumulateJsonChunks (response : Str) : Str :=
  let hasJesusLetterChunk := containsSub (str "\"jesusLetter\"") response ∧
    ¬ containsSub (str "\"guidedPrayer\"") response
  let hasGuidedPrayerChunk := containsSub (str "\"guidedPrayer\"") response ∧
    ¬ containsSub (str "\"biblicalReferences\"") response
  let hasBiblicalReferencesChunk := containsSub (str "\"biblicalReferences\"") response ∧
    ¬ containsSub (str "\"coreMessage\"") response
  let hasCoreMessageChunk := containsSub (str "\"coreMessage\"") response ∧
    ¬ containsSub (str "\x7d") response
  if hasJesusLetterChunk ∨ hasGuidedPrayerChunk ∨ hasBiblicalReferencesChunk ∨
      hasCoreMessageChunk then
    reconstructCompleteJson response
  else if countc '{' response > countc '}' response then
    completeIncompleteJson response
  else response

/-- `fixJsonFormat` (source lines 632-706): return the input unchanged when
it already parses; otherwise strip fences, trim to the brace span, escape
raw newlines inside quoted stretches, drop trailing commas, quote bare
values, and keep the repair only if it now parses. -/
def fixJsonFormat (jsonStr : Str) : Str :=
  match jsonParse jsonStr with
  | some _ => jsonStr
  | none =>
    let j1 := removeFence3JsonAll jsonStr
    let j2 := stripFence3End j1
    let j3 := removeBt3All j2
    let j4 := match idxOfChar '{' j3 with
      | some i => if i > 0 then j3.drop i else j3
      | none => j3
    let j5 := match lastIdxOfChar '}' j4 with
      | some j => if j + 1 < j4.length then j4.take (j + 1) else j4
      | none => j4
    let j6 := escapeNewlinesInQuotes j5
    let j7 := removeTrailingCommas j6
    let j8 := quoteUnquoted j7
    match jsonParse j8 with
    | some _ => j8
    | none => jsonStr

/-- `extractContentFromText` (source lines 768-775): the raw-text fallback,
whose letter is a bounded prefix of the raw text and whose other fields are
fixed defaults. -/
def extractContentFromText (text : Str) : JVal :=
  .jobj
    [ (str "jesusLetter", .jstr (text.take (min text.length 800))),
      (str "guidedPrayer", .jstr
        (str "親愛的天父，感謝你透過耶穌基督賜給我們的愛和恩典...")),
      (str "biblicalReferences", .jarr
        [.jstr (str "約翰福音 3:16"), .jstr (str "詩篇 23:1"), .jstr (str "腓立比書 4:13")]),
      (str "coreMessage", .jstr (str "神愛你，祂必與你同在")) ]

/-- The unescaping applied to each field extracted by
`extractStructuredContent`: double `\n` escapes deleted, single `\n`
escapes turned into newlines, `\"` into quotes. -/
def unescapeExtracted (s : Str) : Str :=
  replaceAllLit (str "\\\"") (str "\"")
    (replaceAllLit (str "\\n") (str "\n")
      (replaceAllLit (str "\\n\\n") [] s))

/-- `extractStructuredContent` (source lines 708-766): per-field regex
extraction from the raw text, with the same canned defaults as the chunk
reconstruction.  Its own catch branch (`createStructuredResponse`) is
unreachable for string input, which the regex extraction never throws on. -/
def extractStructuredContent (response : Str) : JVal :=
  let jesusLetter := match extractFieldColon (str "jesusLetter") response with
    | some content => unescapeExtracted content
    | none => []
  let guidedPrayer := match extractFieldColon (str "guidedPrayer") response with
    | some content => unescapeExtracted content
    | none => []
  let biblicalReferences := match extractRefsChunkNoNl response with
    | some content => quotedTokens content
    | none => []
  let coreMessage := match extractFieldColon (str "coreMessage") response with
    | some content => unescapeExtracted content
    | none => []
  .jobj
    [ (str "jesusLetter", .jstr (if jesusLetter ≠ [] then jesusLetter
        else str "親愛的朋友，我聽見了你的心聲，我愛你，我與你同在。")),
      (str "guidedPrayer", .jstr (if guidedPrayer ≠ [] then guidedPrayer
        else str "親愛的天父，感謝你的愛和恩典，求你賜給我們平安和力量。")),
      (str "biblicalReferences", .jarr (if biblicalReferences.length > 0
        then biblicalReferences.map .jstr else [.jstr (str "約翰福音 3:16")])),
      (str "coreMessage", .jstr (if coreMessage ≠ [] then coreMessage
        else str "神愛你，祂必與你同在")) ]

/-- `createStructuredResponse` (source lines 777-784), reached only from
the catch branch of `extractStructuredContent`, which string inputs never
take. -/
def createStructuredResponse (text : Str) : JVal :=
  .jobj
    [ (str "jesusLetter", .jstr (if text ≠ [] then text
        else str "親愛的孩子，我看見了你的心，我愛你...")),
      (str "guidedPrayer", .jstr
        (str "親愛的天父，感謝你的愛和恩典，求你賜給我們智慧和力量。")),
      (str "biblicalReferences", .jarr [.jstr (str "約翰福音 3:16"), .jstr (str "詩篇 23:1")]),
      (str "coreMessage", .jstr (str "神愛你，祂必與你同在")) ]

/-- Fence-stripping stage of `parseResponse` (source lines 461-466): the
four replace passes on the trimmed text. -/
def stripStage (cleaned0 : Str) : Str :=
  removeBtRunsAll (removeFenceJsonAll (stripFenceEndA (stripFenceStartA cleaned0)))

/-- `parseResponse` lines 469-473: drop everything before the first
opening brace. -/
def sliceOpen (cleaned4 : Str) : Str :=
  match idxOfChar '{' cleaned4 with
  | some i => if i > 0 then cleaned4.drop i else cleaned4
  | none => cleaned4

/-- `parseResponse` lines 475-479: drop everything after the last
closing brace (when it is not already last). -/
def sliceClose (cleaned5 : Str) : Str :=
  match lastIdxOfChar '}' cleaned5 with
  | some j => if j > 0 ∧ j + 1 < cleaned5.length then cleaned5.take (j + 1) else cleaned5
  | none => cleaned5

def sliceBraces (cleaned4 : Str) : Str := sliceClose (sliceOpen cleaned4)

/-- `parseResponse` lines 482-505: extract the brace span and JSON-parse it
after format repair, or fall back to the raw-text placeholder when the
text holds no brace span at all. -/
def parseCleaned (response cleaned6 : Str) : Except Str JVal :=
  match braceSpan cleaned6 with
  | some jsonStr =>
    match jsonParse (fixJsonFormat jsonStr) with
    | some parsed => .ok parsed
    | none => .error (str "JSON解析失敗")
  | none => .ok (extractContentFromText response)

/-- The try block of `parseResponse` (source lines 448-520); each `.error`
is a position where the JS throws into the catch. -/
def parseRespBody (response : Str) : Except Str JVal :=
  if response = [] then .error (str "無效的回應文本")
  else if trim (accumulateJsonChunks response) = [] then .error (str "清理後的回應為空")
  else parseCleaned response (sliceBraces (stripStage (trim (accumulateJsonChunks response))))

/-- `parseResponse` (source lines 448-520): the try body, with the catch
falling back to manual structured extraction.  Total: every input yields a
value. -/
def parseResponse (response : Str) : JVal :=
  match parseRespBody response with
  | .ok v => v
  | .error _ => extractStructuredContent response

/-- The user request (`userInput`): the three required fields plus the
optional religion. -/
structure UserInput where
  nickname : Str
  topic : Str
  situation : Str
  religion : Option Str

/-- The four tracked fields of a parsed response object, each possibly
absent (`undefined`); extra keys of the parsed object play no role in any
verified behaviour and are not tracked. -/
structure RespIn where
  jesusLetter : Option JVal
  guidedPrayer : Option JVal
  biblicalReferences : Option JVal
  coreMessage : Option JVal

/-- Project a parsed value onto its four tracked fields. -/
def respOfJVal (v : JVal) : RespIn :=
  ⟨jget v (str "jesusLetter"), jget v (str "guidedPrayer"),
   jget v (str "biblicalReferences"), jget v (str "coreMessage")⟩

/-- The reply after `validateAndEnhanceResponse`: letter and prayer are
strings, the references are a list (the final `map` guarantees it), and the
core message keeps whatever value survived the `||` defaulting. -/
structure EnhOut where
  jesusLetter : Str
  guidedPrayer : Str
  biblicalReferences : List JVal
  coreMessage : JVal

/-- JS `x || d` on a possibly-absent value. -/
def jor (o : Option JVal) (d : JVal) : JVal := if truthy o then o.getD d else d

/-- The default letter of `validateAndEnhanceResponse` (source line 791). -/
def defaultJesusLetter (ui : UserInput) : Str :=
  str "親愛的" ++ ui.nickname ++ str "，我看見了你的困難，我愛你，我與你同在..."

/-- The default prayer of `validateAndEnhanceResponse` (source lines
792-802). -/
def defaultGuidedPrayer (ui : UserInput) : Str :=
  str "我來為您禱告，如果您願意，可以跟著一起唸：\n\n親愛的天父，\n\n我們來到你的面前，感謝你賜給我們耶穌基督，讓我們可以透過祂來到你的面前。\n\n我們為" ++
  ui.nickname ++ str "祈求，在他/她面臨" ++ ui.topic ++
  str "的挑戰時，求你賜給他/她智慧和力量。\n\n求你的平安充滿" ++ ui.nickname ++
  str "的心，讓他/她在困難中仍能經歷你的愛。\n\n主啊，我們將一切都交託在你的手中，相信你必有最好的安排。"

/-- Regex `/<p>.*$/gs` with empty replacement: cut the string at the first
occurrence of `p`. -/
def removeToEnd (p : Str) (s : Str) : Str :=
  match findSub p s with
  | some i => s.take i
  | none => s

/-- Regex `/<a>.*?<b>/gs` with empty replacement: repeatedly remove the
stretch from an occurrence of `a` to the next following occurrence of `b`,
scanning left to right and never rescanning removed ground. -/
def removeLazySpansGo (a b : Str) : Nat → Str → Str
  | _, [] => []
  | n + 1, _ :: cs => removeLazySpansGo a b n cs
  | 0, c :: cs =>
    if a ≠ [] ∧ pfx a (c :: cs) then
      match findSub b ((c :: cs).drop a.length) with
      | some i => removeLazySpansGo a b (a.length + i + b.length - 1) cs
      | none => c :: removeLazySpansGo a b 0 cs
    else c :: removeLazySpansGo a b 0 cs

def removeLazySpans (a b s : Str) : Str := removeLazySpansGo a b 0 s

/-- The string-level body of `cleanJesusLetter`: the four `replace` calls
and the final `trim`, in source order. -/
def cleanJesusLetterStr (s : Str) : Str :=
  trim
    (removeToEnd (str "如果您願意，可以跟著一起唸")
      (removeLazySpans (str "奉耶穌的名禱告") (str "阿們。")
        (removeLazySpans (str "親愛的天父") (str "阿們。")
          (removeLazySpans (str "我來為您禱告") (str "阿們。") s))))

/-- `cleanJesusLetter` (source lines 939-951): strip prayer boilerplate
that leaked into the letter.  A falsy argument yields the empty string; a
truthy non-string argument throws in JS (`.replace` is not a function). -/
def cleanJesusLetter (letter : Option JVal) : Except Str Str :=
  if ¬ truthy letter then .ok []
  else
    match letter with
    | some (.jstr s) => .ok (cleanJesusLetterStr s)
    | _ => .error (str "TypeError: letter.replace is not a function")

/-- The string-level body of `cleanGuidedPrayer`. -/
def cleanGuidedPrayerStr (s : Str) : Str :=
  if pfx (str "我來為您禱告") (trim s) then trim s
  else str "我來為您禱告，如果您願意，可以跟著一起唸：\n\n" ++ trim s

/-- `cleanGuidedPrayer` (source lines 953-965): trim, then make sure the
prayer opens with 我來為您禱告, inserting the full invitation line when the
six-character opener is missing. -/
def cleanGuidedPrayer (prayer : Option JVal) : Except Str Str :=
  if ¬ truthy prayer then .ok []
  else
    match prayer with
    | some (.jstr s) => .ok (cleanGuidedPrayerStr s)
    | _ => .error (str "TypeError: prayer.trim is not a function")

/-- The fixed continuation of `enhanceJesusLetter` (source lines 967-984),
which is appended (not measured) when the letter is short. -/
def letterEnhancement (ui : UserInput) : Str :=
  str "\n\n\n我深深理解你在" ++ ui.topic ++
  str "方面所面臨的挑戰。每一個困難都是成長的機會，每一次眼淚都被我珍藏。\n\n記住，我曾說過：\"凡勞苦擔重擔的人可以到我這裡來，我就使你們得安息。\"（馬太福音 11:28）你不是孤單的，我一直與你同在。\n\n在這個過程中，請相信我的計劃是美好的。雖然現在可能看不清前路，但我會一步步引導你。就像牧羊人引導羊群一樣，我會帶領你走過這個困難時期。\n\n願我的平安充滿你的心，願我的愛成為你的力量。\n\n"

/-- `enhanceJesusLetter`. -/
def enhanceJesusLetter (letter : Str) (ui : UserInput) : Str :=
  letter ++ letterEnhancement ui

/-- An entry of the `topicMapping` table of `enhanceGuidedPrayer`. -/
structure TopicInfo where
  name : Str
  prayerContext : Str
  hiddenNeeds : Str

/-- `topicMapping[topic] || {name: topic, ...}` (source lines 990-1032). -/
def topicMapping (topic : Str) : TopicInfo :=
  if topic = str "工作" then
    ⟨str "工作", str "工作上的需要", str "工作壓力、人際關係、職涯方向、工作與生活平衡的困擾"⟩
  else if topic = str "財富" then
    ⟨str "財富", str "經濟上的需要", str "經濟壓力、理財焦慮、對未來的不安全感、物質與心靈的平衡"⟩
  else if topic = str "信仰" then
    ⟨str "信仰", str "信仰上的需要", str "靈性乾渴、信心軟弱、與神關係的疏遠、屬靈爭戰"⟩
  else if topic = str "感情" then
    ⟨str "感情", str "感情上的需要", str "關係中的傷痛、孤單感、對愛的渴望、過去的創傷"⟩
  else if topic = str "健康" then
    ⟨str "健康", str "健康上的需要", str "身體的痛苦、對疾病的恐懼、心理健康、家人的擔憂"⟩
  else if topic = str "家庭" then
    ⟨str "家庭", str "家庭上的需要", str "家庭衝突、代溝問題、責任重擔、對家人的擔心"⟩
  else if topic = str "其他" then
    ⟨str "其他", str "生活中的各種需要", str "內心深處的困擾、說不出的重擔、未來的不確定性"⟩
  else ⟨topic, str "生活中的需要", str "內心的重擔和困擾"⟩

/-- The keyword-triggered intercession lines of `enhanceGuidedPrayer`
(source lines 1035-1043). -/
def jesusInsight (jesusLetter : Str) : Str :=
  if jesusLetter ≠ [] then
    (if containsSub (str "平安") jesusLetter then str "求你賜給他/她內心的平安，" else []) ++
    (if containsSub (str "智慧") jesusLetter then str "求你賜給他/她屬天的智慧，" else []) ++
    (if containsSub (str "力量") jesusLetter then str "求你成為他/她的力量，" else []) ++
    (if containsSub (str "盼望") jesusLetter then str "求你賜給他/她活潑的盼望，" else []) ++
    (if containsSub (str "恩典") jesusLetter then str "讓他/她經歷你豐盛的恩典，" else [])
  else []

/-- The fixed continuation of `enhanceGuidedPrayer` (source lines
1045-1059). -/
def prayerEnhancement (info : TopicInfo) (insight : Str) : Str :=
  str "\n\n我們來到你的面前，為在" ++ info.prayerContext ++
  str "向你祈求。\n\n感謝你的愛從不改變，感謝你的恩典夠我們用。" ++ insight ++
  str "讓我們能夠在困難中看見你的作為。\n\n主啊，雖然我們可能沒有詳細說出所有的困難，但你是無所不知的神，你深知我們在" ++
  info.name ++ str "方面可能面臨的挑戰，包括" ++ info.hiddenNeeds ++
  str "。求你親自安慰我們的心，醫治那些隱而未現的傷痛。\n\n就如你透過耶穌向我們所說的話，我們也為此祈求：求你安慰我們的心，除去一切的憂慮和恐懼。讓你的平安如江河一般流淌在我們的心中。\n\n天父，即使我們沒有說出口的重擔，你都看見了。求你親自背負我們的憂慮，讓我們知道不需要獨自承擔。無論是已經分享的困難，還是藏在心底的掙扎，都求你一一眷顧。\n\n求你按著你在耶穌裡的應許，成就在我們身上。讓我們不僅聽見你的話語，更能經歷你話語的能力。\n\n主啊，我們將這一切都交託在你的手中，包括那些說不出來的嘆息和眼淚，相信你必有最好的安排。求你繼續引導和保守我們，讓我們在每一天都能感受到你的同在和愛。"

/-- `enhanceGuidedPrayer`: the prayer with a newline and the continuation
(selected by topic, seasoned by keywords of the letter) appended. -/
def enhanceGuidedPrayer (prayer : Str) (ui : UserInput) (jesusLetter : Str) : Str :=
  prayer ++ '\n' :: prayerEnhancement (topicMapping ui.topic) (jesusInsight jesusLetter)

/-- A canned verse record (`{verse, text}`) of the topic tables. -/
def vref (v t : String) : JVal :=
  .jobj [(str "verse", .jstr (str v)), (str "text", .jstr (str t))]

/-- `topicReferences[topic] || topicReferences['信仰']` (source lines
855-900). -/
def topicReferences (topic : Str) : List JVal :=
  if topic = str "工作" then
    [ vref "傳道書 3:1" "凡事都有定期，天下萬務都有定時。",
      vref "箴言 16:3" "你所做的，要交託耶和華，你所謀的，就必成立。",
      vref "歌羅西書 3:23" "無論做什麼，都要從心裡做，像是給主做的，不是給人做的。",
      vref "腓立比書 4:19" "我的神必照他榮耀的豐富，在基督耶穌裡，使你們一切所需用的都充足。",
      vref "以弗所書 2:10" "我們原是他的工作，在基督耶穌裡造成的，為要叫我們行善，就是神所預備叫我們行的。" ]
  else if topic = str "感情" then
    [ vref "哥林多前書 13:4-7" "愛是恆久忍耐，又有恩慈；愛是不嫉妒；愛是不自誇，不張狂。",
      vref "約翰一書 4:18" "愛裡沒有懼怕；愛既完全，就把懼怕除去。",
      vref "以弗所書 4:32" "並要以恩慈相待，存憐憫的心，彼此饒恕，正如神在基督裡饒恕了你們一樣。",
      vref "箴言 17:17" "朋友乃時常親愛，弟兄為患難而生。",
      vref "羅馬書 12:10" "愛弟兄，要彼此親熱；恭敬人，要彼此推讓。" ]
  else if topic = str "財富" then
    [ vref "馬太福音 6:26" "你們看那天上的飛鳥，也不種，也不收，也不積蓄在倉裡，你們的天父尚且養活牠。你們不比飛鳥貴重得多嗎？",
      vref "提摩太前書 6:6" "然而，敬虔加上知足的心便是大利了。",
      vref "希伯來書 13:5" "你們存心不可貪愛錢財，要以自己所有的為足；因為主曾說：我總不撇下你，也不丟棄你。",
      vref "瑪拉基書 3:10" "萬軍之耶和華說：你們要將當納的十分之一全然送入倉庫，使我家有糧，以此試試我，是否為你們敞開天上的窗戶，傾福與你們，甚至無處可容。",
      vref "箴言 3:9-10" "你要以財物和一切初熟的土產尊榮耶和華。這樣，你的倉房必充滿有餘；你的酒醡有新酒盈溢。" ]
  else if topic = str "健康" then
    [ vref "以賽亞書 53:5" "哪知他為我們的過犯受害，為我們的罪孽壓傷。因他受的刑罰，我們得平安；因他受的鞭傷，我們得醫治。",
      vref "詩篇 103:2-3" "我的心哪，你要稱頌耶和華！不可忘記他的一切恩惠！他赦免你的一切罪孽，醫治你的一切疾病。",
      vref "雅各書 5:14-15" "你們中間有病了的呢，他就該請教會的長老來；他們可以奉主的名用油抹他，為他禱告。出於信心的祈禱要救那病人，主必叫他起來；他若犯了罪，也必蒙赦免。",
      vref "約翰三書 1:2" "親愛的兄弟啊，我願你凡事興盛，身體健壯，正如你的靈魂興盛一樣。",
      vref "出埃及記 15:26" "又說：你若留意聽耶和華─你神的話，又行我眼中看為正的事，留心聽我的誡命，守我一切的律例，我就不將所加與埃及人的疾病加在你身上，因為我─耶和華是醫治你的。" ]
  else if topic = str "家庭" then
    [ vref "約書亞記 24:15" "至於我和我家，我們必定事奉耶和華。",
      vref "以弗所書 6:1-3" "你們作兒女的，要在主裡聽從父母，這是理所當然的。要孝敬父母，使你得福，在世長壽。這是第一條帶應許的誡命。",
      vref "箴言 22:6" "教養孩童，使他走當行的道，就是到老他也不偏離。",
      vref "歌羅西書 3:20-21" "你們作兒女的，要凡事聽從父母，因為這是主所喜悅的。你們作父親的，不要惹兒女的氣，恐怕他們失了志氣。",
      vref "詩篇 127:3" "兒女是耶和華所賜的產業；所懷的胎是他所給的賞賜。" ]
  else
    [ vref "希伯來書 11:1" "信就是所望之事的實底，是未見之事的確據。",
      vref "羅馬書 10:17" "可見信道是從聽道來的，聽道是從基督的話來的。",
      vref "雅各書 1:6" "只要憑著信心求，一點不疑惑；因為那疑惑的人，就像海中的波浪，被風吹動翻騰。",
      vref "馬可福音 9:23" "耶穌對他說：你若能信，在信的人，凡事都能。",
      vref "以弗所書 2:8-9" "你們得救是本乎恩，也因著信；這並不是出於自己，乃是神所賜的；也不是出於行為，免得有人自誇。" ]

/-- The generic fallback verses of `enhanceBiblicalReferences` (source
lines 917-923). -/
def refsFallback : List JVal :=
  [ vref "約翰福音 3:16" "神愛世人，甚至將他的獨生子賜給他們，叫一切信他的，不致滅亡，反得永生。",
    vref "羅馬書 8:28" "我們知道萬事都互相效力，叫愛神的人得益處，就是按他旨意被召的人。",
    vref "腓立比書 4:13" "我靠著那加給我力量的，凡事都能做。",
    vref "詩篇 23:1" "耶和華是我的牧者，我必不致缺乏。",
    vref "以賽亞書 40:31" "但那等候耶和華的必從新得力。他們必如鷹展翅上騰；他們奔跑卻不困倦，行走卻不疲乏。" ]

/-- `typeof ref === 'string' ? ref : ref.verse`: the deduplication key.  On
`null` the property read throws. -/
def verseKeyE : JVal → Except Str (Option JVal)
  | .jstr s => .ok (some (.jstr s))
  | .jnull => .error (str "TypeError: cannot read properties of null")
  | v => .ok (jget v (str "verse"))

/-- The `Set.has` test over stored keys (which may be `undefined`). -/
def seenHas (seen : List (Option JVal)) (k : Option JVal) : Bool := seen.any (optJbeq k)

/-- The collection loop of `enhanceBiblicalReferences`: add each entry
whose key is unseen while fewer than 7 entries are collected. -/
def uniqFold : List JVal → List (Option JVal) → List JVal →
    Except Str (List (Option JVal) × List JVal)
  | [], seen, acc => .ok (seen, acc)
  | r :: rs, seen, acc =>
    match verseKeyE r with
    | .error e => .error e
    | .ok k =>
      if ¬ seenHas seen k ∧ acc.length < 7 then uniqFold rs (k :: seen) (acc ++ [r])
      else uniqFold rs seen acc

/-- `enhanceBiblicalReferences` (source lines 851-935): spread the existing
references, append the topic table, collect up to 7 distinct keys, top up
from the generic fallback when still below 5, and cap at 7. -/
def enhanceBiblicalReferences (existingRefs : JVal) (ui : UserInput) :
    Except Str (List JVal) := do
  let ex ← spreadE existingRefs
  let combined := ex ++ topicReferences ui.topic
  let (seen, uniq) ← uniqFold combined [] []
  let (_, uniq2) ←
    if uniq.length < 5 then uniqFold refsFallback seen uniq else .ok (seen, uniq)
  .ok (uniq2.take 7)

/-- The format-normalizing `map` at the end of `validateAndEnhanceResponse`
(source lines 828-845): strings become five-field records, records get any
falsy field replaced by its default. -/
def wrapRef (r : JVal) : Except Str JVal :=
  match r with
  | .jstr s => .ok (.jobj
      [ (str "verse", .jstr s),
        (str "text", .jstr (str "請查閱聖經獲取完整經文")),
        (str "context", .jstr (str "相關背景")),
        (str "meaning", .jstr (str "屬靈意義")),
        (str "application", .jstr (str "實際應用")) ])
  | .jnull => .error (str "TypeError: cannot read properties of null")
  | v => .ok (.jobj
      [ (str "verse", jor (jget v (str "verse")) (.jstr (str "未知"))),
        (str "text", jor (jget v (str "text")) (.jstr (str "請查閱聖經獲取完整經文"))),
        (str "context", jor (jget v (str "context")) (.jstr (str "相關背景"))),
        (str "meaning", jor (jget v (str "meaning")) (.jstr (str "屬靈意義"))),
        (str "application", jor (jget v (str "application")) (.jstr (str "實際應用"))) ])

/-- `v.length < 5` under JS semantics (`undefined < 5` is false). -/
def lt5 : Option Nat → Bool
  | some n => n < 5
  | none => false

/-- The element-wise normalization over the references list, failing at
the first throwing element (as `Array.prototype.map` does). -/
def mapRefs : List JVal → Except Str (List JVal)
  | [] => .ok []
  | r :: rs =>
    match wrapRef r with
    | .error e => .error e
    | .ok w =>
      match mapRefs rs with
      | .error e => .error e
      | .ok ws => .ok (w :: ws)

/-- `v.map(...)`: only arrays have a `map` method. -/
def mapWrap (v : JVal) : Except Str (List JVal) :=
  match v with
  | .jarr xs => mapRefs xs
  | _ => .error (str "TypeError: biblicalReferences.map is not a function")

/-- The letter-length gate of `validateAndEnhanceResponse` (source lines
806-809): enhance when shorter than 350 characters. -/
def enhancedLetter (l1 : Str) (ui : UserInput) : Str :=
  if l1.length < 350 then enhanceJesusLetter l1 ui else l1

/-- The prayer-length gate (source lines 811-814): enhance when shorter
than 300 characters. -/
def enhancedPrayer (p1 : Str) (ui : UserInput) (l2 : Str) : Str :=
  if p1.length < 300 then enhanceGuidedPrayer p1 ui l2 else p1

/-- The reference-count gate (source lines 816-820): top up when fewer
than 5 entries. -/
def enhancedRefs (r0 : JVal) (ui : UserInput) : Except Str JVal :=
  if lt5 (lengthProp r0) then (enhanceBiblicalReferences r0 ui).map .jarr else .ok r0

/-- `validateAndEnhanceResponse` (source lines 786-849), in mutation order:
default the four fields, clean letter and prayer, lengthen short letter and
prayer (the prayer enhancement reads the already-updated letter), top up a
short reference list, and normalize every reference into a five-field
record.  The truthiness guard before the final `map` is vacuous because the
references were defaulted to a non-empty array. -/
def validateAndEnhanceResponse (resp : RespIn) (ui : UserInput) : Except Str EnhOut := do
  let l1 ← cleanJesusLetter (some (jor resp.jesusLetter (.jstr (defaultJesusLetter ui))))
  let p1 ← cleanGuidedPrayer (some (jor resp.guidedPrayer (.jstr (defaultGuidedPrayer ui))))
  let r1 ← enhancedRefs (jor resp.biblicalReferences (.jarr [.jstr (str "約翰福音 3:16")])) ui
  let r2 ← mapWrap r1
  .ok ⟨enhancedLetter l1 ui, enhancedPrayer p1 ui (enhancedLetter l1 ui), r2,
    jor resp.coreMessage (.jstr (str "神愛你，祂必與你同在"))⟩

/-- `estimateTokens` (source lines 1132-1138): CJK characters weigh 1.5,
ASCII letter runs weigh 1, rounded up. -/
def isCJK (c : Char) : Bool := 0x4e00 ≤ c.toNat ∧ c.toNat ≤ 0x9fff

/-- ASCII letter test (the `[a-zA-Z]+` word runs of `estimateTokens`). -/
def isAsciiLetter (c : Char) : Bool := ('a' ≤ c ∧ c ≤ 'z') ∨ ('A' ≤ c ∧ c ≤ 'Z')

/-- Number of maximal ASCII-letter runs. -/
def countWordRunsGo : Nat → Str → Nat
  | _, [] => 0
  | n + 1, _ :: cs => countWordRunsGo n cs
  | 0, c :: cs =>
    if isAsciiLetter c then 1 + countWordRunsGo (cs.takeWhile isAsciiLetter).length cs
    else countWordRunsGo 0 cs

def countWordRuns (s : Str) : Nat := countWordRunsGo 0 s

/-- `estimateTokens`: `Math.ceil(chineseChars * 1.5 + englishWords)`. -/
def estimateTokens (s : Str) : Nat :=
  countWordRuns s + (3 * (s.filter isCJK).length + 1) / 2

/-- `buildCompactPrompt` (source lines 188-212).  The destructuring
defaults fire only for absent fields, which the route validation has
already excluded for the three required ones. -/
def buildCompactPrompt (ui : UserInput) : Str :=
  let displayTopic := if ui.topic = str "其他" then str "生活中的各種需要" else ui.topic
  str "你是耶穌，以溫柔、真誠、盼望的口吻回應。請僅輸出完整的JSON字串，所有內容使用繁體中文，換行使用單一的\\n。\n\n用戶：\n暱稱: " ++
  ui.nickname ++ str "\n主題: " ++ displayTopic ++ str "\n情況: " ++ ui.situation ++
  str "\n宗教: " ++ (match ui.religion with
    | some r => if r ≠ [] then r else str "未提供"
    | none => str "未提供") ++
  str "\n\n請輸出具體且精煉的四項內容（JSON鍵值）：\n- jesusLetter: 300-400字，直入核心、貼近心靈、溫柔安慰與盼望。\n- guidedPrayer: 350-500字，以屬靈長輩代禱身分；開頭：「我來為您禱告，如果您願意，可以跟著一起唸」。\n- biblicalReferences: 3條精選經文（繁體中文章節與引文），每條附一句簡短應用說明。\n- coreMessage: 10-25字，總結最重要的提醒或盼望。\n\n要求：\n1. 僅輸出JSON字串，不加多餘文字或Markdown。\n2. 語氣溫暖、真誠、謙卑；避免冗長鋪陳，重視可實踐的安慰與指引。\n3. 若主題為「其他」，禱告中以「在生活中的各種需要」表達。\n4. 嚴格遵守字數與結構，使用\\n作為JSON字串中的換行。\n"

/-- The religion default of `buildFullPrompt` (`religion = '基督教'` fires
only when the field is absent). -/
def religionOrDefault (ui : UserInput) : Str :=
  match ui.religion with
  | some r => r
  | none => str "基督教"

/-- The block appended to a loaded prompt file in `buildFullPrompt`
(source lines 369-391). -/
def fullPromptSuffix (ui : UserInput) : Str :=
  str "\n\n## 當前用戶資訊：\n- 暱稱：" ++ ui.nickname ++ str "\n- 主題：" ++ ui.topic ++
  str "\n- 情況：" ++ ui.situation ++ str "\n- 宗教背景：" ++ religionOrDefault ui ++
  str "\n\n請以耶穌的身份，按照上述詳細要求回應，並以JSON格式返回：\n\x7b\n  \"jesusLetter\": \"...\",\n  \"guidedPrayer\": \"...\",\n  \"coreMessage\": \"...\",\n  \"biblicalReferences\": [\n    \x7b\n      \"verse\": \"經文出處\",\n      \"text\": \"經文內容\",\n      \"context\": \"歷史背景\",\n      \"meaning\": \"屬靈意義\", \n      \"application\": \"實際應用\"\n    \x7d\n  ]\n\x7d"

/-- The built-in prompt used when no prompt file is loaded (source lines
397-445). -/
def builtinFullPrompt (ui : UserInput) : Str :=
  str "你是耶穌基督，正在回覆一位名叫" ++ ui.nickname ++
  str "的朋友的來信。\n\n用戶情況：" ++ ui.situation ++ str "\n關注主題：" ++ ui.topic ++
  str "\n宗教背景：" ++ religionOrDefault ui ++
  str "\n\n請按照以下格式回覆，並確保包含豐富的聖經引用和詳細內容：\n\n## 回覆要求：\n\n### jesusLetter (400-600字)\n- 以耶穌的身份，用溫暖、智慧的語調回覆\n- 針對用戶的具體情況給予安慰和指導\n- 自然融入聖經教導和應許\n- 展現對用戶處境的深度理解和同理心\n\n### guidedPrayer (450-650字，包含四層面醫治禱告)\n- 第一層：身體醫治 - 為身體健康、疾病得醫治禱告\n- 第二層：情感醫治 - 為內心創傷、情緒困擾禱告  \n- 第三層：關係醫治 - 為人際關係、家庭和睦禱告\n- 第四層：靈性醫治 - 為靈命成長、與神關係禱告\n- 每層禱告都要具體、深入，並引用相關聖經應許\n\n### coreMessage (100-150字)\n- 提煉核心信息和鼓勵\n- 強調神的愛和應許\n\n### biblicalReferences (必須5-7條)\n每條引用包含：\n- verse: 經文出處\n- text: 經文內容\n- context: 歷史背景\n- meaning: 屬靈意義\n- application: 實際應用\n\n## 重要要求：\n1. 必須包含5-7條聖經經文引用\n2. 包含1-2個相關的聖經故事\n3. 針對" ++
  religionOrDefault ui ++
  str "背景提供合適的屬靈指導\n4. 語調溫和、智慧、充滿希望\n5. 內容要個人化，直接回應用戶的具體需要\n\n請以JSON格式回覆：\n\x7b\n  \"jesusLetter\": \"...\",\n  \"guidedPrayer\": \"...\", \n  \"coreMessage\": \"...\",\n  \"biblicalReferences\": [...]\n\x7d"

/-- The provider-side configuration of the service object: which services
were initialized, the preferred one, and the loaded prompt file text (empty
when the file is missing). -/
structure SvcState where
  preferredService : Str
  geminiAvail : Bool
  openaiAvail : Bool
  aiPrompts : Str

/-- `buildFullPrompt` (source lines 356-446). -/
def buildFullPrompt (st : SvcState) (ui : UserInput) : Str :=
  if st.aiPrompts ≠ [] ∧ trim st.aiPrompts ≠ [] then
    replaceAllLit (str "{religion}") (religionOrDefault ui)
      (replaceAllLit (str "{topic}") ui.topic
        (replaceAllLit (str "{situation}") ui.situation
          (replaceAllLit (str "{nickname}") ui.nickname st.aiPrompts))) ++
    fullPromptSuffix ui
  else builtinFullPrompt ui

/-- The outcomes the two provider calls would have if made.  The network
call itself is the one thing a shallow embedding cannot run; everything
downstream of the returned text (or thrown error) is modelled exactly. -/
structure CallEnv where
  gemini : Except Str Str
  openai : Except Str Str

/-- The `metadata` record attached to every result.  `fallback` is absent
(`none`) on the primary path, `error` is set only by the static fallback,
`tokenUsage` only by the primary path. -/
structure GenMeta where
  requestId : Str
  processingTime : Nat
  aiService : Str
  fallback : Option Bool
  error : Option Str
  tokenUsage : Option (Nat × Nat × Nat)

/-- A reply as returned by `generateResponse` (the enhanced fields plus
metadata). -/
structure GenResult where
  jesusLetter : Str
  guidedPrayer : Str
  biblicalReferences : List JVal
  coreMessage : JVal
  metadata : GenMeta

/-- `topicInsights[topic] || '內心的重擔'` (source lines 1071-1081). -/
def topicInsights (topic : Str) : Str :=
  if topic = str "工作" then str "工作壓力、人際關係或職涯方向"
  else if topic = str "財富" then str "經濟壓力或對未來的不安全感"
  else if topic = str "信仰" then str "靈性乾渴或與神關係的疏遠"
  else if topic = str "感情" then str "關係中的傷痛或孤單感"
  else if topic = str "健康" then str "身體的痛苦或對疾病的恐懼"
  else if topic = str "家庭" then str "家庭衝突或對家人的擔心"
  else if topic = str "其他" then str "內心深處的困擾"
  else str "內心的重擔"

/-- `generateFallbackResponse` (source lines 1064-1130): the fully
pre-authored static reply, returned (never thrown) when both providers
fail. -/
def generateFallbackResponse (ui : UserInput) (rid : Str) (elapsed : Nat) : GenResult :=
  let hiddenConcerns := topicInsights ui.topic
  { jesusLetter :=
      str "親愛的" ++ ui.nickname ++
      str "，\n\n雖然現在我無法給你詳細的回應，但我想讓你知道，我愛你，我看見你在" ++
      ui.topic ++
      str "方面的困擾。\n\n無論你正在經歷什麼，請記住你不是孤單的。我一直與你同在，我的愛永不改變。\n\n在困難的時候，請來到我面前，將你的重擔卸給我。我會給你力量，我會給你平安。\n\n相信我對你的計劃是美好的，雖然現在可能看不清楚，但我會一步步引導你。\n\n愛你的耶穌",
    guidedPrayer :=
      str "我來為您禱告，如果您願意，可以跟著一起唸：\n\n親愛的天父，\n\n我們來到你的面前，感謝你賜給我們耶穌基督，讓我們可以透過祂來到你的面前。\n\n我們為" ++
      ui.nickname ++ str "祈求，在他/她面臨" ++ ui.topic ++
      str "的挑戰時，求你賜給他/她智慧和力量。\n\n主啊，雖然" ++ ui.nickname ++
      str "可能沒有詳細說出所有的困難，但你是無所不知的神，你深知他/她可能面臨的" ++
      hiddenConcerns ++
      str "。求你親自安慰他/她的心，醫治那些隱而未現的傷痛。\n\n就如你透過耶穌向" ++
      ui.nickname ++
      str "所說的話，我們也為他/她祈求：求你的平安充滿他/她的心，讓他/她在困難中仍能經歷你的愛和同在。\n\n天父，即使" ++
      ui.nickname ++
      str "沒有說出口的重擔，你都看見了。求你親自背負他/她的憂慮，讓他/她知道不需要獨自承擔。無論是已經分享的困難，還是藏在心底的掙扎，都求你一一眷顧。\n\n求你按著你在耶穌裡的應許，成就在" ++
      ui.nickname ++
      str "身上。讓他/她不僅聽見你的話語，更能經歷你話語的能力。\n\n主啊，我們將一切都交託在你的手中，包括那些說不出來的嘆息和眼淚，相信你必有最好的安排。求你繼續引導和保守" ++
      ui.nickname ++ str "，讓他/她在每一天都能感受到你的同在和愛。",
    biblicalReferences :=
      [ .jstr (str "馬太福音 11:28 - 凡勞苦擔重擔的人可以到我這裡來，我就使你們得安息。"),
        .jstr (str "詩篇 23:1 - 耶和華是我的牧者，我必不致缺乏。"),
        .jstr (str "腓立比書 4:13 - 我靠著那加給我力量的，凡事都能做。") ],
    coreMessage := .jstr (str "神愛你，祂必與你同在，永不離棄你。"),
    metadata :=
      { requestId := rid, processingTime := elapsed, aiService := str "fallback",
        fallback := some true, error := some (str "AI服務暫時不可用"), tokenUsage := none } }

/-- `tryFallbackService` (source lines 310-354): call the other provider
with the full prompt; on its success parse and enhance, tagging the
metadata with the fallback service name and `fallback: true`; on any
failure (including a parse-or-enhance throw) return the static reply. -/
def tryFallbackService (st : SvcState) (env : CallEnv) (ui : UserInput) (rid : Str)
    (elapsed : Nat) : GenResult :=
  let attempt : Except Str (Str × Str) :=
    if st.preferredService = str "gemini" ∧ st.openaiAvail then
      env.openai.map (fun r => (r, str "openai-fallback"))
    else if st.preferredService = str "openai" ∧ st.geminiAvail then
      env.gemini.map (fun r => (r, str "gemini-fallback"))
    else .error (str "沒有可用的備用服務")
  match attempt with
  | .ok (resp, used) =>
    match validateAndEnhanceResponse (respOfJVal (parseResponse resp)) ui with
    | .ok v =>
      { jesusLetter := v.jesusLetter, guidedPrayer := v.guidedPrayer,
        biblicalReferences := v.biblicalReferences, coreMessage := v.coreMessage,
        metadata := { requestId := rid, processingTime := elapsed, aiService := used,
                      fallback := some true, error := none, tokenUsage := none } }
    | .error _ => generateFallbackResponse ui rid elapsed
  | .error _ => generateFallbackResponse ui rid elapsed

/-- The four enhanced fields as a JS object, as `JSON.stringify` receives
them in `generateResponse` (only its token count is ever used). -/
def enhOutToJVal (v : EnhOut) : JVal :=
  .jobj
    [ (str "jesusLetter", .jstr v.jesusLetter),
      (str "guidedPrayer", .jstr v.guidedPrayer),
      (str "biblicalReferences", .jarr v.biblicalReferences),
      (str "coreMessage", v.coreMessage) ]

/-- `generateResponse` (source lines 92-185): build the prompt (compact
when the estimate exceeds 800 tokens), call the preferred provider, parse
and enhance; any throw along the way falls through to
`tryFallbackService`. -/
def generateResponse (st : SvcState) (env : CallEnv) (ui : UserInput) (rid : Str)
    (elapsed : Nat) : GenResult :=
  let promptTokens0 := estimateTokens (buildFullPrompt st ui)
  let promptTokens :=
    if promptTokens0 > 800 then estimateTokens (buildCompactPrompt ui) else promptTokens0
  let attempt : Except Str (Str × Str) :=
    if st.preferredService = str "gemini" ∧ st.geminiAvail then
      env.gemini.map (fun r => (r, str "gemini"))
    else if st.preferredService = str "openai" ∧ st.openaiAvail then
      env.openai.map (fun r => (r, str "openai"))
    else .error (str "首選AI服務不可用")
  match attempt with
  | .ok (resp, used) =>
    match validateAndEnhanceResponse (respOfJVal (parseResponse resp)) ui with
    | .ok v =>
      let responseTokens := estimateTokens (jsonStringify (enhOutToJVal v))
      { jesusLetter := v.jesusLetter, guidedPrayer := v.guidedPrayer,
        biblicalReferences := v.biblicalReferences, coreMessage := v.coreMessage,
        metadata := { requestId := rid, processingTime := elapsed, aiService := used,
                      fallback := none, error := none,
                      tokenUsage :=
                        some (promptTokens, responseTokens, promptTokens + responseTokens) } }
    | .error _ => tryFallbackService st env ui rid elapsed
  | .error _ => tryFallbackService st env ui rid elapsed

/-- The decision of the `POST /generate` validation (source lines
1159-1180). -/
inductive RouteDecision where
  | errMissing (required : List Str) (received : List Str)
  | errTooLong (maxLength currentLength : Nat)
  | accepted

/-- Property read on the possibly-absent request `userInput`. -/
def uiField (u : Option JVal) (k : Str) : Option JVal :=
  match u with
  | some v => jget v k
  | none => none

/-- `Object.keys(userInput || {})` for the diagnostic payload (an object
has its keys listed; other values contribute none that matter here). -/
def objKeys : Option JVal → List Str
  | some (.jobj fs) => fs.map (·.1)
  | _ => []

/-- The validation of `router.post('/generate')`: reject with 400 when
`userInput` or any of the three required fields is falsy, or when the
situation is longer than 2000; otherwise accept (and hand over to
`generateResponse`). -/
def postGenerateValidate (userInput : Option JVal) : RouteDecision :=
  if ¬ truthy userInput ∨ ¬ truthy (uiField userInput (str "nickname")) ∨
      ¬ truthy (uiField userInput (str "situation")) ∨
      ¬ truthy (uiField userInput (str "topic")) then
    .errMissing [str "nickname", str "situation", str "topic"] (objKeys userInput)
  else
    match uiField userInput (str "situation") with
    | some sv =>
      match lengthProp sv with
      | some n => if n > 2000 then .errTooLong 2000 n else .accepted
      | none => .accepted
    | none => .accepted

/-- `sfx p s`: `p` is a trailing piece of `s`. -/
def sfx (p s : Str) : Bool := pfx p.reverse s.reverse

/-- `straddleB p x y`: some proper nonempty leading piece of `p` ends `x`
while the rest of `p` starts `y` — the only way an occurrence of `p` can
cross the boundary of `x ++ y`. -/
def straddleB (p x y : Str) : Bool :=
  (List.range p.length).any (fun k => 0 < k && sfx (p.take k) x && pfx (p.drop k) y)

/-- The canonical prayer-opening phrase: what `cleanGuidedPrayer` prepends
(up to its trailing colon) and whose leading six characters open every
cleaned prayer. -/
def prayerPhrase : Str := str "我來為您禱告，如果您願意，可以跟著一起唸"

/-- A tracked field is well-typed when absent or a string (the shape every
fallback path of the normalizer produces; a JSON object can break it). -/
def wtStrOpt : Option JVal → Bool
  | none => true
  | some (.jstr _) => true
  | _ => false

/-- A reference entry the enhancement can process without throwing:
a string or an object. -/
def refEntryOk : JVal → Bool
  | .jstr _ => true
  | .jobj _ => true
  | _ => false

/-- The references field is well-typed when absent or a list of
processable entries. -/
def wtRefsOpt : Option JVal → Bool
  | none => true
  | some (.jarr es) => es.all refEntryOk
  | _ => false

/-- A parsed response whose present fields have the shapes the enhancement
expects (absent fields are fine: they are defaulted). -/
def wellTypedResp (r : RespIn) : Bool :=
  wtStrOpt r.jesusLetter && wtStrOpt r.guidedPrayer &&
  wtRefsOpt r.biblicalReferences && wtStrOpt r.coreMessage

/-- A value that is a non-empty string. -/
def isNonemptyStr : JVal → Bool
  | .jstr s => s ≠ []
  | _ => false

/-- A field that is present and a non-empty string. -/
def isNonemptyStrOpt : Option JVal → Bool
  | some (.jstr s) => s ≠ []
  | _ => false

/-- A reference-record field that the `map` normalization turns into a
non-empty string: either already a string, or falsy (then defaulted). -/
def refFieldOk (o : Option JVal) : Bool :=
  match o with
  | some (.jstr _) => true
  | o => ¬ truthy o

/-- A reference entry whose normalized record has all five fields as
non-empty strings: a non-empty string entry, or an object each of whose
five tracked properties is a string or falsy, with a truthy string where
non-empty output is needed. -/
def refEntryWt (r : JVal) : Bool :=
  match r with
  | .jstr s => s ≠ []
  | .jobj fs =>
    (match jget (.jobj fs) (str "verse") with
      | some (.jstr v) => v ≠ []
      | o => ¬ truthy o) &&
    refFieldOk (jget (.jobj fs) (str "text")) &&
    refFieldOk (jget (.jobj fs) (str "context")) &&
    refFieldOk (jget (.jobj fs) (str "meaning")) &&
    refFieldOk (jget (.jobj fs) (str "application"))
  | _ => false

/-- A reference entry with a usable deduplication key: a non-empty string,
or an object whose verse is a non-empty string. -/
def refEntryTyped (r : JVal) : Bool :=
  match r with
  | .jstr s => s ≠ []
  | .jobj fs =>
    (match jget (.jobj fs) (str "verse") with
      | some (.jstr v) => v ≠ []
      | _ => false)
  | _ => false

/-- The deduplication key of `enhanceBiblicalReferences`, as a total
function (agrees with `verseKeyE` on every non-null value). -/
def verseKeyT : JVal → Option JVal
  | .jstr s => some (.jstr s)
  | v => jget v (str "verse")

/-- The verse identifier of an entry as a string, when it is one. -/
def verseStrOf (r : JVal) : Option Str :=
  match verseKeyT r with
  | some (.jstr v) => some v
  | _ => none

/-- All five fields of a normalized reference record are non-empty
strings. -/
def fiveFieldsOk (e : JVal) : Bool :=
  isNonemptyStrOpt (jget e (str "verse")) && isNonemptyStrOpt (jget e (str "text")) &&
  isNonemptyStrOpt (jget e (str "context")) && isNonemptyStrOpt (jget e (str "meaning")) &&
  isNonemptyStrOpt (jget e (str "application"))

/-- Build a request `userInput` object with exactly the given fields
present (absent fields model missing keys). -/
def mkUserInput (n s t : Option Str) : JVal :=
  .jobj ((match n with | some v => [(str "nickname", JVal.jstr v)] | none => []) ++
    (match s with | some v => [(str "situation", JVal.jstr v)] | none => []) ++
    (match t with | some v => [(str "topic", JVal.jstr v)] | none => []))

/-- A present, non-empty (truthy) string field. -/
def truthyStrOpt : Option Str → Bool
  | some v => v ≠ []
  | none => false

/-- The acceptance condition of the `/generate` validation over string
fields: all three required fields truthy and the situation within 2000
characters. -/
def validUIFields (n s t : Option Str) : Bool :=
  truthyStrOpt n && truthyStrOpt t &&
  (match s with
    | some v => v ≠ [] && v.length ≤ 2000
    | none => false)

/-- Feed an enhanced reply back into the enhancement (the shape a second
`validateAndEnhanceResponse` call receives). -/
def toRespIn (o : EnhOut) : RespIn :=
  ⟨some (.jstr o.jesusLetter), some (.jstr o.guidedPrayer),
   some (.jarr o.biblicalReferences), some o.coreMessage⟩

/-- A sample user request used by concrete witnesses. -/
def uiSample : UserInput := ⟨str "小明", str "信仰", str "最近很迷惘", none⟩

/-- First enhancement pass over a 349-character letter (the concrete input
of the idempotence analysis). -/
def c7Pass1 : EnhOut :=
  (validateAndEnhanceResponse ⟨some (.jstr (List.replicate 349 '安')), none, none, none⟩
    uiSample).toOption.getD ⟨[], [], [], .jnull⟩

/-- A 350-character letter already at the length floor. -/
def c7L : Str := List.replicate 350 '安'

/-- A 300-character prayer opening with the required six characters. -/
def c7P : Str := str "我來為您禱告" ++ List.replicate 294 '主'

/-- A complete five-field reference record. -/
def c7ref (v : String) : JVal :=
  .jobj
    [ (str "verse", .jstr (str v)),
      (str "text", .jstr (str "請查閱聖經獲取完整經文")),
      (str "context", .jstr (str "相關背景")),
      (str "meaning", .jstr (str "屬靈意義")),
      (str "application", .jstr (str "實際應用")) ]

/-- Five already-normalized reference records. -/
def c7refs : List JVal :=
  [c7ref "約翰福音 3:16", c7ref "詩篇 23:1", c7ref "腓立比書 4:13",
   c7ref "馬太福音 11:28", c7ref "羅馬書 8:28"]

/-- The dedup key of an entry, with `none` for both `undefined` and the
(throwing) `null` case. -/
def verseKeyOf (r : JVal) : Option JVal :=
  match verseKeyE r with
  | .ok k => k
  | .error _ => none

/-- Whether computing the dedup key does not throw. -/
def keyOkB (r : JVal) : Bool :=
  match verseKeyE r with
  | .ok _ => true
  | .error _ => false

/-- Pairwise distinctness of dedup keys, as the `Set` membership test sees
them. -/
def keysDistinctB : List JVal → Bool
  | [] => true
  | r :: rs => rs.all (fun q => !(optJbeq (verseKeyOf q) (verseKeyOf r))) && keysDistinctB rs

/-- How many entries of `rs` carry a key not yet in `seen`. -/
def newCount (rs : List JVal) (seen : List (Option JVal)) : Nat :=
  rs.countP (fun r => !(seenHas seen (verseKeyOf r)))

/-- Shape of a normalized reference record: the five canonical keys in
order, with the four non-verse values truthy. -/
def refShapeB (w : JVal) : Bool :=
  match w with
  | .jobj [(k1, _), (k2, tv), (k3, cv), (k4, mv), (k5, av)] =>
    k1 == str "verse" && k2 == str "text" && k3 == str "context" &&
    k4 == str "meaning" && k5 == str "application" &&
    truthy (some tv) && truthy (some cv) && truthy (some mv) && truthy (some av)
  | _ => false

/-- Whether an entry's verse field holds a string. -/
def verseIsStrB (w : JVal) : Bool :=
  match jget w (str "verse") with
  | some (.jstr _) => true
  | _ => false

/-- Eight distinct bare-string references. -/
def c2refs8 : List JVal :=
  [.jstr (str "創世記 1:1"), .jstr (str "詩篇 23:1"), .jstr (str "箴言 3:5"),
   .jstr (str "以賽亞書 41:10"), .jstr (str "馬太福音 11:28"), .jstr (str "約翰福音 3:16"),
   .jstr (str "羅馬書 8:28"), .jstr (str "腓立比書 4:13")]

/-- Five references with a duplicated citation. -/
def c6dupRefs : List JVal :=
  [.jstr (str "約翰福音 3:16"), .jstr (str "約翰福音 3:16"), .jstr (str "詩篇 23:1"),
   .jstr (str "箴言 3:5"), .jstr (str "羅馬書 8:28")]

/-- Five references whose first entry carries a numeric verse field. -/
def c10refs : List JVal :=
  [.jobj [(str "verse", .jnum 7)], .jstr (str "詩篇 23:1"), .jstr (str "箴言 3:5"),
   .jstr (str "羅馬書 8:28"), .jstr (str "約翰福音 3:16")]

/-- A reference record that the normalizing `map` maps to itself: exactly
the five fields, in the order the `map` writes them, all truthy strings. -/
def fixedRef (v : String) : JVal :=
  .jobj
    [ (str "verse", .jstr (str v)),
      (str "text", .jstr (str "請查閱聖經獲取完整經文")),
      (str "context", .jstr (str "相關背景")),
      (str "meaning", .jstr (str "屬靈意義")),
      (str "application", .jstr (str "實際應用")) ]

/-- The service configuration the constructor builds when both API keys
are present: OpenAI preferred, both providers initialized, no prompt file
loaded. -/
def svcBoth : SvcState := ⟨str "openai", true, true, []⟩

/-- A syntactically valid upstream reply whose letter field is a JSON
number: the direct parse succeeds, and the enhancement then throws inside
`cleanJesusLetter`. -/
def illTypedResp : Str :=
  str "\x7b\"jesusLetter\": 5, \"guidedPrayer\": \"x\", \"biblicalReferences\": [\"a\"], \"coreMessage\": \"y\"\x7d"

/-- A well-formed upstream reply used by concrete witnesses. -/
def goodResp : Str :=
  str "\x7b\"jesusLetter\": \"親愛的孩子\", \"guidedPrayer\": \"天父啊\", \"biblicalReferences\": [\"約翰福音 3:16\"], \"coreMessage\": \"平安\"\x7d"

/-! Lemmas.  First a small theory of the string scanning primitives. -/

theorem pfx_iff (p s : Str) : pfx p s = true ↔ ∃ t, s = p ++ t := by
  induction p generalizing s with
  | nil => simp [pfx]
  | cons a as ih =>
    cases s with
    | nil => simp [pfx]
    | cons b bs =>
      simp only [pfx, Bool.and_eq_true, beq_iff_eq, ih, List.cons_append, List.cons.injEq]
      constructor
      · rintro ⟨rfl, t, rfl⟩
        exact ⟨t, rfl, rfl⟩
      · rintro ⟨t, rfl, rfl⟩
        exact ⟨rfl, t, rfl⟩

theorem pfx_append_self (p t : Str) : pfx p (p ++ t) = true :=
  (pfx_iff p (p ++ t)).mpr ⟨t, rfl⟩

theorem pfx_extend (p s t : Str) (h : pfx p s = true) : pfx p (s ++ t) = true := by
  obtain ⟨u, rfl⟩ := (pfx_iff p s).mp h
  rw [List.append_assoc]
  exact pfx_append_self p (u ++ t)

theorem containsSub_cons (p : Str) (c : Char) (cs : Str) :
    containsSub p (c :: cs) = (pfx p (c :: cs) || containsSub p cs) := by
  simp only [containsSub, findSub]
  by_cases h : pfx p (c :: cs) = true
  · simp [h]
  · simp only [Bool.not_eq_true] at h
    simp [h, List.tail]

theorem containsSub_nil (p : Str) : containsSub p [] = pfx p [] := by
  simp only [containsSub, findSub]
  by_cases h : pfx p [] = true
  · simp [h]
  · simp only [Bool.not_eq_true] at h
    simp [h]

theorem containsSub_iff (p s : Str) : containsSub p s = true ↔ ∃ u v, s = u ++ (p ++ v) := by
  induction s with
  | nil =>
    rw [containsSub_nil, pfx_iff]
    constructor
    · rintro ⟨t, ht⟩
      exact ⟨[], t, ht⟩
    · rintro ⟨u, v, huv⟩
      have hu : u = [] := by
        cases u with
        | nil => rfl
        | cons a as => simp at huv
      subst hu
      exact ⟨v, by simpa using huv⟩
  | cons c cs ih =>
    rw [containsSub_cons]
    simp only [Bool.or_eq_true, pfx_iff, ih]
    constructor
    · rintro (⟨t, ht⟩ | ⟨u, v, huv⟩)
      · exact ⟨[], t, by simpa using ht⟩
      · exact ⟨c :: u, v, by simp [huv]⟩
    · rintro ⟨u, v, huv⟩
      cases u with
      | nil => exact Or.inl ⟨v, by simpa using huv⟩
      | cons a as =>
        simp only [List.cons_append, List.cons.injEq] at huv
        exact Or.inr ⟨as, v, huv.2⟩

theorem containsSub_of_left (p x y : Str) (h : containsSub p x = true) :
    containsSub p (x ++ y) = true := by
  obtain ⟨u, v, rfl⟩ := (containsSub_iff p x).mp h
  exact (containsSub_iff p _).mpr ⟨u, v ++ y, by simp⟩

theorem containsSub_of_right (p x y : Str) (h : containsSub p y = true) :
    containsSub p (x ++ y) = true := by
  obtain ⟨u, v, rfl⟩ := (containsSub_iff p y).mp h
  exact (containsSub_iff p _).mpr ⟨x ++ u, v, by simp⟩

theorem containsSub_sub (p q s : Str) (hpq : ∃ a b, q = a ++ (p ++ b))
    (h : containsSub q s = true) : containsSub p s = true := by
  obtain ⟨a, b, rfl⟩ := hpq
  obtain ⟨u, v, rfl⟩ := (containsSub_iff _ s).mp h
  exact (containsSub_iff p _).mpr ⟨u ++ a, b ++ v, by simp⟩

theorem sfx_refl (s : Str) : sfx s s = true := by
  simpa [sfx] using pfx_append_self s.reverse []

theorem sfx_cons (p : Str) (c : Char) (s : Str) (h : sfx p s = true) :
    sfx p (c :: s) = true := by
  simp only [sfx, List.reverse_cons] at *
  exact pfx_extend p.reverse s.reverse [c] h

theorem pfx_split_at (x y p : Str) (h : pfx p (x ++ y) = true) :
    (pfx p x = true ∧ p.length ≤ x.length) ∨
    (p.take x.length = x ∧ pfx (p.drop x.length) y = true ∧ x.length < p.length) := by
  obtain ⟨t, ht⟩ := (pfx_iff p (x ++ y)).mp h
  by_cases hle : p.length ≤ x.length
  · left
    have h3 := congrArg (List.take x.length) ht
    rw [List.take_left, List.take_append_eq_append_take, List.take_of_length_le hle] at h3
    exact ⟨(pfx_iff p x).mpr ⟨t.take (x.length - p.length), h3⟩, hle⟩
  · right
    push_neg at hle
    have h3 := congrArg (List.take x.length) ht
    rw [List.take_left, List.take_append_eq_append_take,
      Nat.sub_eq_zero_of_le (le_of_lt hle), List.take_zero, List.append_nil] at h3
    have h4 := congrArg (List.drop x.length) ht
    rw [List.drop_left, List.drop_append_eq_append_drop,
      Nat.sub_eq_zero_of_le (le_of_lt hle), List.drop_zero] at h4
    exact ⟨h3.symm, (pfx_iff _ y).mpr ⟨t, h4⟩, hle⟩

theorem containsSub_decomp (p x y : Str) (hp : p ≠ [])
    (h : containsSub p (x ++ y) = true) :
    containsSub p x = true ∨ containsSub p y = true ∨ straddleB p x y = true := by
  induction x with
  | nil => exact Or.inr (Or.inl (by simpa using h))
  | cons c x2 ih =>
    rw [List.cons_append, containsSub_cons] at h
    rcases Bool.or_eq_true_iff.mp h with h1 | h2
    · rcases pfx_split_at (c :: x2) y p h1 with ⟨hfit, _⟩ | ⟨htake, hdrop, hlt⟩
      · exact Or.inl ((containsSub_iff p (c :: x2)).mpr
          (by obtain ⟨t, ht⟩ := (pfx_iff _ _).mp hfit; exact ⟨[], t, by simpa using ht⟩))
      · refine Or.inr (Or.inr ?_)
        simp only [straddleB, List.any_eq_true, List.mem_range, Bool.and_eq_true,
          decide_eq_true_eq]
        refine ⟨(c :: x2).length, hlt, ⟨by simp, ?_⟩, hdrop⟩
        rw [htake]
        exact sfx_refl _
    · rcases ih h2 with hx | hy | hs
      · exact Or.inl (by rw [containsSub_cons, hx, Bool.or_true])
      · exact Or.inr (Or.inl hy)
      · refine Or.inr (Or.inr ?_)
        simp only [straddleB, List.any_eq_true, List.mem_range, Bool.and_eq_true,
          decide_eq_true_eq] at hs ⊢
        obtain ⟨k, hk, ⟨hk0, hsfx⟩, hpfx⟩ := hs
        exact ⟨k, hk, ⟨hk0, sfx_cons _ c _ hsfx⟩, hpfx⟩

theorem trim_decomp (s : Str) : ∃ a b, s = a ++ (trim s ++ b) := by
  refine ⟨s.takeWhile jsWs, ((trimL s).reverse.takeWhile jsWs).reverse, ?_⟩
  have h1 : s = s.takeWhile jsWs ++ trimL s := (List.takeWhile_append_dropWhile jsWs s).symm
  have h2 : trimL s = trim s ++ ((trimL s).reverse.takeWhile jsWs).reverse := by
    have h3 : (trimL s).reverse =
        (trimL s).reverse.takeWhile jsWs ++ (trimL s).reverse.dropWhile jsWs :=
      (List.takeWhile_append_dropWhile jsWs (trimL s).reverse).symm
    have h4 := congrArg List.reverse h3
    rw [List.reverse_reverse, List.reverse_append] at h4
    exact h4
  rw [← h2, ← h1]

theorem containsSub_trim (p s : Str) (h : containsSub p (trim s) = true) :
    containsSub p s = true := by
  obtain ⟨a, b, hs⟩ := trim_decomp s
  rw [hs]
  exact containsSub_of_right p a _ (containsSub_of_left p _ b h)

theorem findSub_pfx (p s : Str) (i : Nat) (h : findSub p s = some i) :
    pfx p (s.drop i) = true := by
  induction s generalizing i with
  | nil =>
    simp only [findSub] at h
    by_cases hp : pfx p [] = true
    · rw [if_pos hp] at h
      injection h with h2
      subst h2
      simpa using hp
    · rw [if_neg (by simpa using hp)] at h
      exact absurd h (by simp)
  | cons c cs ih =>
    simp only [findSub, List.tail] at h
    by_cases hp : pfx p (c :: cs) = true
    · rw [if_pos hp] at h
      injection h with h2
      subst h2
      simpa using hp
    · rw [if_neg (by simpa using hp)] at h
      cases hrec : findSub p cs with
      | none =>
        rw [hrec] at h
        exact absurd h (by simp)
      | some j =>
        rw [hrec] at h
        simp only [Option.map_some', Option.some.injEq] at h
        subst h
        simpa using ih j hrec

theorem findSub_min (p s : Str) (i : Nat) (h : findSub p s = some i) :
    ∀ j, j < i → pfx p (s.drop j) = false := by
  induction s generalizing i with
  | nil =>
    intro j hj
    simp only [findSub] at h
    by_cases hp : pfx p [] = true
    · rw [if_pos hp] at h
      injection h with h2
      omega
    · rw [if_neg (by simpa using hp)] at h
      exact absurd h (by simp)
  | cons c cs ih =>
    intro j hj
    simp only [findSub, List.tail] at h
    by_cases hp : pfx p (c :: cs) = true
    · rw [if_pos hp] at h
      injection h with h2
      omega
    · rw [if_neg (by simpa using hp)] at h
      cases hrec : findSub p cs with
      | none =>
        rw [hrec] at h
        exact absurd h (by simp)
      | some k =>
        rw [hrec] at h
        simp only [Option.map_some', Option.some.injEq] at h
        subst h
        cases j with
        | zero => simpa using hp
        | succ j2 => simpa using ih k hrec j2 (by omega)

theorem removeToEnd_not_contain (p s : Str) (hp : p ≠ []) :
    containsSub p (removeToEnd p s) = false := by
  cases hf : findSub p s with
  | none => simp [removeToEnd, hf, containsSub]
  | some i =>
    simp only [removeToEnd, hf]
    by_contra hcon
    rw [Bool.not_eq_false] at hcon
    obtain ⟨u, v, huv⟩ := (containsSub_iff p _).mp hcon
    have hple : 1 ≤ p.length := by
      cases p with
      | nil => exact absurd rfl hp
      | cons a as => simp
    have hlen : u.length + p.length ≤ i := by
      have h5 := congrArg List.length huv
      simp only [List.length_take, List.length_append] at h5
      omega
    have hdropu : s.drop u.length = p ++ (v ++ s.drop i) := by
      have hs : s = s.take i ++ s.drop i := (List.take_append_drop i s).symm
      calc s.drop u.length = (u ++ (p ++ v) ++ s.drop i).drop u.length := by
            rw [← huv, ← hs]
        _ = p ++ (v ++ s.drop i) := by
            rw [List.append_assoc, List.drop_left, List.append_assoc]
    have hmin := findSub_min p s i hf u.length (by omega)
    rw [hdropu, pfx_append_self] at hmin
    exact Bool.true_eq_false.mp hmin

theorem countc_append (c : Char) (x y : Str) :
    countc c (x ++ y) = countc c x + countc c y := by
  induction x with
  | nil => simp [countc]
  | cons b bs ih => simp [countc, ih]; omega

theorem countc_replicate (c d : Char) (n : Nat) :
    countc c (List.replicate n d) = if d == c then n else 0 := by
  induction n with
  | zero => simp [countc]
  | succ m ih =>
    rw [List.replicate_succ]
    simp only [countc, ih]
    by_cases h : d == c
    · simp [h]
      omega
    · simp only [Bool.not_eq_true] at h
      simp [h]

theorem countc_dropWhile (c : Char) (p : Char → Bool) (hc : p c = false) (s : Str) :
    countc c (s.dropWhile p) = countc c s := by
  induction s with
  | nil => rfl
  | cons b bs ih =>
    by_cases hb : p b = true
    · rw [List.dropWhile_cons_of_pos hb, ih]
      have hbc : (b == c) = false := by
        by_contra hx
        rw [Bool.not_eq_false, beq_iff_eq] at hx
        subst hx
        rw [hb] at hc
        exact Bool.true_eq_false.mp hc
      simp [countc, hbc]
    · rw [List.dropWhile_cons_of_neg hb]

theorem countc_reverse (c : Char) (s : Str) : countc c s.reverse = countc c s := by
  induction s with
  | nil => rfl
  | cons b bs ih => simp [countc, List.reverse_cons, countc_append, ih]; omega

theorem countc_trim (c : Char) (s : Str) (hc : jsWs c = false) :
    countc c (trim s) = countc c s := by
  unfold trim trimR trimL
  rw [countc_reverse, countc_dropWhile c jsWs hc, countc_reverse,
    countc_dropWhile c jsWs hc]

theorem closeDangling_counts (s : Str) (ch : Char) (hq : ('"' == ch) = false)
    (hb : (']' == ch) = false) (hw : jsWs ch = false) :
    countc ch (closeDangling s) = countc ch s := by
  have happ : ∀ (t : Str) (b : Bool) (d : Char), (d == ch) = false →
      countc ch (if b = true then t ++ [d] else t) = countc ch t := by
    intro t b d hd
    cases b
    · simp
    · simp [countc_append, countc, hd]
  unfold closeDangling
  rw [happ _ _ _ hb, happ _ _ _ hq, happ _ _ _ hq, happ _ _ _ hq, countc_trim ch s hw]

theorem completeIncompleteJson_counts (s : Str) :
    countc '{' (completeIncompleteJson s) = countc '{' s ∧
    countc '}' (completeIncompleteJson s) =
      countc '}' s + (countc '{' s - countc '}' s) := by
  unfold completeIncompleteJson
  rw [countc_append, countc_append, countc_replicate, countc_replicate,
    closeDangling_counts s '{' (by decide) (by decide) (by decide),
    closeDangling_counts s '}' (by decide) (by decide) (by decide)]
  constructor
  · simp
  · simp

/-- C9: for raw text with more opening than closing curly braces,
`completeIncompleteJson` appends exactly the missing closers, so the repaired
text has balanced curly-brace counts.  (The claim as frozen also asserted
balanced square-bracket counts, which the code does not establish; see the
counterexample.) -/
theorem C9_brace_repair_balances_curly (s : Str)
    (h : countc '}' s < countc '{' s) :
    countc '{' (completeIncompleteJson s) = countc '}' (completeIncompleteJson s) := by
  obtain ⟨ho, hc⟩ := completeIncompleteJson_counts s
  omega

/-- C9 witness: a concrete truncated object is repaired to balanced curly
braces. -/
theorem C9_witness :
    countc '}' (str "\x7b\"jesusLetter\": \"abc") < countc '{' (str "\x7b\"jesusLetter\": \"abc") ∧
    countc '{' (completeIncompleteJson (str "\x7b\"jesusLetter\": \"abc")) =
      countc '}' (completeIncompleteJson (str "\x7b\"jesusLetter\": \"abc")) :=
  ⟨by decide, C9_brace_repair_balances_curly (str "\x7b\"jesusLetter\": \"abc") (by decide)⟩

/-- C9 counterexample: on `{"a": [[` the repair appends one closing brace
and no closing brackets, so the square-bracket counts of the repaired text
are not balanced, refuting the claim that the repaired text has balanced
brace and bracket counts. -/
theorem C9_counterexample :
    countc '}' (str "\x7b\"a\": [[") < countc '{' (str "\x7b\"a\": [[") ∧
    countc '[' (completeIncompleteJson (str "\x7b\"a\": [[")) ≠
      countc ']' (completeIncompleteJson (str "\x7b\"a\": [[")) := by
  constructor
  · decide
  · decide

/-- C8: the `/generate` route rejects with HTTP 400 exactly when the
request body's `userInput`, or its nickname, situation or topic, is missing
or empty (JS falsy), or the situation exceeds 2000 characters; in
particular a 2000-character situation is accepted.  The missing-field 400
carries the three required field names; the oversize 400 carries the limit
and the offending length. -/
theorem C8_route_validation (n s t : Option Str) :
    (postGenerateValidate (some (mkUserInput n s t)) = .accepted ↔
      validUIFields n s t = true) ∧
    ((truthyStrOpt n && truthyStrOpt s && truthyStrOpt t) = false →
      postGenerateValidate (some (mkUserInput n s t)) =
        .errMissing [str "nickname", str "situation", str "topic"]
          (objKeys (some (mkUserInput n s t)))) ∧
    (∀ v, s = some v → 2000 < v.length → truthyStrOpt n = true → truthyStrOpt t = true →
      postGenerateValidate (some (mkUserInput n s t)) = .errTooLong 2000 v.length) := by
  have hn : uiField (some (mkUserInput n s t)) (str "nickname") = n.map JVal.jstr := by
    cases n <;> cases s <;> cases t <;> rfl
  have hs : uiField (some (mkUserInput n s t)) (str "situation") = s.map JVal.jstr := by
    cases n <;> cases s <;> cases t <;> rfl
  have ht : uiField (some (mkUserInput n s t)) (str "topic") = t.map JVal.jstr := by
    cases n <;> cases s <;> cases t <;> rfl
  have htru : truthy (some (mkUserInput n s t)) = true := by
    simp [truthy, mkUserInput]
  refine ⟨?_, ?_, ?_⟩
  · unfold postGenerateValidate
    rw [hn, hs, ht, htru]
    cases n with
    | none => simp [truthy, validUIFields, truthyStrOpt]
    | some nv =>
      cases s with
      | none => simp [truthy, validUIFields, truthyStrOpt]
      | some sv =>
        cases t with
        | none => simp [truthy, validUIFields, truthyStrOpt]
        | some tv =>
          simp only [Option.map_some', truthy, validUIFields, truthyStrOpt, lengthProp,
            Bool.and_eq_true, decide_eq_true_eq]
          by_cases hnv : nv = [] <;> by_cases hsv : sv = [] <;> by_cases htv : tv = [] <;>
            by_cases hlen : sv.length > 2000 <;>
            simp [hnv, hsv, htv, hlen] <;> omega
  · intro hmiss
    unfold postGenerateValidate
    rw [hn, hs, ht, htru]
    cases n with
    | none => simp [truthy]
    | some nv =>
      cases s with
      | none => simp [truthy]
      | some sv =>
        cases t with
        | none => simp [truthy]
        | some tv =>
          simp only [truthyStrOpt, Bool.and_eq_false_iff, decide_eq_false_iff_not,
            Decidable.not_not] at hmiss
          simp only [Option.map_some', truthy]
          rcases hmiss with (h1 | h1) | h1 <;> simp [h1]
  · rintro v rfl hlen hnv htv
    unfold postGenerateValidate
    rw [hn, hs, ht, htru]
    cases n with
    | none => simp [truthyStrOpt] at hnv
    | some nv =>
      cases t with
      | none => simp [truthyStrOpt] at htv
      | some tv =>
        simp only [truthyStrOpt, decide_eq_true_eq] at hnv htv
        have hv : v ≠ [] := by
          intro hv
          subst hv
          simp at hlen
        simp [truthy, lengthProp, hnv, htv, hv, hlen]

/-- C8 witness: a request with all three fields present and a situation of
exactly 2000 characters is accepted. -/
theorem C8_witness :
    postGenerateValidate (some (mkUserInput (some (str "小明"))
      (some (List.replicate 2000 'x')) (some (str "信仰")))) = .accepted :=
  (C8_route_validation (some (str "小明")) (some (List.replicate 2000 'x'))
    (some (str "信仰"))).1.mpr (by
      simp only [validUIFields, truthyStrOpt, List.length_replicate, Bool.and_eq_true,
        decide_eq_true_eq]
      refine ⟨⟨by decide, by decide⟩, ?_, by decide⟩
      intro h
      have hlen := List.length_replicate 2000 'x'
      rw [h] at hlen
      simp at hlen)

/-- C3: with OpenAI preferred and failing, a gemini success whose reply
parses and enhances without error is served with
`metadata.aiService = "gemini-fallback"` and `metadata.fallback = true`;
when gemini fails too, the hard-coded static reply is returned (never
thrown) with `aiService = "fallback"`, `fallback = true` and a diagnostic
`metadata.error`.  (The claim as frozen promised the secondary service name
whenever the secondary call succeeds; the counterexample shows an
enhancement throw downgrades to the static reply, hence the added
parses-and-enhances hypothesis.) -/
theorem C3_fallback_metadata (st : SvcState) (env : CallEnv) (ui : UserInput)
    (rid : Str) (el : Nat) (e : Str)
    (hpref : st.preferredService = str "openai") (hoa : st.openaiAvail = true)
    (hofail : env.openai = .error e) :
    (∀ resp, st.geminiAvail = true → env.gemini = .ok resp →
        (validateAndEnhanceResponse (respOfJVal (parseResponse resp)) ui).isOk = true →
        (generateResponse st env ui rid el).metadata.aiService = str "gemini-fallback" ∧
        (generateResponse st env ui rid el).metadata.fallback = some true) ∧
    (∀ e2, env.gemini = .error e2 →
        (generateResponse st env ui rid el).metadata.aiService = str "fallback" ∧
        (generateResponse st env ui rid el).metadata.fallback = some true ∧
        (generateResponse st env ui rid el).metadata.error = some (str "AI服務暫時不可用")) := by
  have hne1 : ¬ (st.preferredService = str "gemini" ∧ st.geminiAvail = true) := by
    rintro ⟨h1, _⟩
    rw [hpref] at h1
    exact absurd h1 (by decide)
  have hgen : generateResponse st env ui rid el = tryFallbackService st env ui rid el := by
    unfold generateResponse
    rw [if_neg hne1, if_pos ⟨hpref, hoa⟩, hofail]
    rfl
  have hne2 : ¬ (st.preferredService = str "gemini" ∧ st.openaiAvail = true) := by
    rintro ⟨h1, _⟩
    rw [hpref] at h1
    exact absurd h1 (by decide)
  constructor
  · intro resp hga hgok hvok
    rw [hgen]
    unfold tryFallbackService
    rw [if_neg hne2, if_pos ⟨hpref, hga⟩, hgok]
    cases hval : validateAndEnhanceResponse (respOfJVal (parseResponse resp)) ui with
    | error err =>
      rw [hval] at hvok
      exact absurd hvok (by simp [Except.isOk, Except.toBool])
    | ok v =>
      simp only [Except.map, hval]
      exact ⟨trivial, trivial⟩
  · intro e2 hge
    rw [hgen]
    unfold tryFallbackService
    by_cases hga : st.geminiAvail = true
    · rw [if_neg hne2, if_pos ⟨hpref, hga⟩, hge]
      exact ⟨rfl, rfl, rfl⟩
    · rw [if_neg hne2, if_neg (by rintro ⟨_, h⟩; exact hga h)]
      exact ⟨rfl, rfl, rfl⟩

set_option maxRecDepth 4000 in
/-- C3 witness: concrete runs of both amended scenarios. -/
theorem C3_witness :
    (generateResponse svcBoth ⟨.ok goodResp, .error (str "boom")⟩ uiSample
      (str "rid") 0).metadata.aiService = str "gemini-fallback" ∧
    (generateResponse svcBoth ⟨.ok goodResp, .error (str "boom")⟩ uiSample
      (str "rid") 0).metadata.fallback = some true ∧
    (generateResponse svcBoth ⟨.error (str "g"), .error (str "o")⟩ uiSample
      (str "rid") 0).metadata.aiService = str "fallback" ∧
    (generateResponse svcBoth ⟨.error (str "g"), .error (str "o")⟩ uiSample
      (str "rid") 0).metadata.error = some (str "AI服務暫時不可用") := by
  have h1 := (C3_fallback_metadata svcBoth ⟨.ok goodResp, .error (str "boom")⟩ uiSample
    (str "rid") 0 (str "boom") rfl rfl rfl).1 goodResp rfl rfl (by decide)
  have h2 := (C3_fallback_metadata svcBoth ⟨.error (str "g"), .error (str "o")⟩ uiSample
    (str "rid") 0 (str "o") rfl rfl rfl).2 (str "g") rfl
  exact ⟨h1.1, h1.2, h2.1, h2.2.2⟩

set_option maxRecDepth 4000 in
/-- C3 counterexample: OpenAI (preferred) fails and the gemini call itself
succeeds, but its reply carries a numeric letter field, so the enhancement
throws and the static reply is served: `metadata.aiService` is `"fallback"`,
not the secondary service name, refuting the claim that a successful
secondary call is always tagged with the secondary provider. -/
theorem C3_counterexample :
    (generateResponse svcBoth ⟨.ok illTypedResp, .error (str "boom")⟩ uiSample
      (str "rid") 0).metadata.aiService = str "fallback" ∧
    (generateResponse svcBoth ⟨.ok illTypedResp, .error (str "boom")⟩ uiSample
      (str "rid") 0).metadata.aiService ≠ str "gemini-fallback" := by
  constructor
  · decide
  · decide


/-! ### Identity lemmas for prose input (no brace, quote or backtick) -/

theorem mem_of_mem_trim (c : Char) (s : Str) (h : c ∈ trim s) : c ∈ s := by
  obtain ⟨a, b, hab⟩ := trim_decomp s
  rw [hab]
  simp only [List.mem_append]
  exact Or.inr (Or.inl h)

theorem containsSub_false_of_not_mem (p s : Str) (c : Char) (hc : c ∈ p) (hs : c ∉ s) :
    containsSub p s = false := by
  by_contra h
  rw [Bool.not_eq_false] at h
  obtain ⟨u, v, huv⟩ := (containsSub_iff p s).mp h
  refine hs ?_
  rw [huv]
  simp only [List.mem_append]
  exact Or.inr (Or.inl hc)

theorem countc_eq_zero (c : Char) (s : Str) (h : c ∉ s) : countc c s = 0 := by
  induction s with
  | nil => rfl
  | cons b bs ih =>
    simp only [List.mem_cons, not_or] at h
    have hb : ¬ ((b == c) = true) := by
      simp only [beq_iff_eq]
      exact fun hh => h.1 hh.symm
    simp only [countc, if_neg hb, ih h.2]

theorem takeWhile_bt_nil (s : Str) (h : '`' ∉ s) : s.takeWhile (fun x => x = '`') = [] := by
  cases s with
  | nil => rfl
  | cons c cs =>
    simp only [List.mem_cons, not_or] at h
    have hc : ¬ c = '`' := fun hh => h.1 hh.symm
    simp [List.takeWhile_cons, hc]

theorem stripFenceStartA_id (s : Str) (h : '`' ∉ s) : stripFenceStartA s = s := by
  simp only [stripFenceStartA, takeWhile_bt_nil s h, List.length_nil]
  rfl

theorem stripFenceEndA_id (s : Str) (h : '`' ∉ s) : stripFenceEndA s = s := by
  have h1 : '`' ∉ s.reverse.dropWhile jsWs := fun hm =>
    h (List.mem_reverse.mp ((List.dropWhile_sublist _).subset hm))
  simp only [stripFenceEndA, takeWhile_bt_nil _ h1, List.length_nil]
  rfl

theorem removeFenceJsonGo_id (s : Str) (h : '`' ∉ s) : removeFenceJsonGo 0 s = s := by
  induction s with
  | nil => rfl
  | cons c cs ih =>
    simp only [List.mem_cons, not_or] at h
    have hc : ¬ c = '`' := fun hh => h.1 hh.symm
    rw [removeFenceJsonGo, if_neg hc, ih h.2]

theorem removeBtRunsGo_id (s : Str) (h : '`' ∉ s) : removeBtRunsGo 0 s = s := by
  induction s with
  | nil => rfl
  | cons c cs ih =>
    simp only [List.mem_cons, not_or] at h
    have hc : ¬ c = '`' := fun hh => h.1 hh.symm
    rw [removeBtRunsGo, if_neg hc, ih h.2]

theorem idxOfChar_none (c : Char) (s : Str) (h : c ∉ s) : idxOfChar c s = none := by
  induction s with
  | nil => rfl
  | cons b bs ih =>
    simp only [List.mem_cons, not_or] at h
    have hb : ¬ ((b == c) = true) := by
      simp only [beq_iff_eq]
      exact fun hh => h.1 hh.symm
    rw [idxOfChar, if_neg hb, ih h.2]
    rfl

theorem braceSpan_none (s : Str) (h : '\x7b' ∉ s) : braceSpan s = none := by
  unfold braceSpan
  rw [idxOfChar_none _ s h]

theorem accumulateJsonChunks_id (s : Str) (hb : '\x7b' ∉ s) (hq : '"' ∉ s) :
    accumulateJsonChunks s = s := by
  have h1 := containsSub_false_of_not_mem (str "\"jesusLetter\"") s '"' (by decide) hq
  have h2 := containsSub_false_of_not_mem (str "\"guidedPrayer\"") s '"' (by decide) hq
  have h3 := containsSub_false_of_not_mem (str "\"biblicalReferences\"") s '"' (by decide) hq
  have h4 := containsSub_false_of_not_mem (str "\"coreMessage\"") s '"' (by decide) hq
  have h5 : countc '\x7b' s = 0 := countc_eq_zero _ s hb
  simp only [accumulateJsonChunks, h1, h2, h3, h4, h5]
  have hc1 : ¬ (false = true ∧ ¬false = true ∨ false = true ∧ ¬false = true ∨
      false = true ∧ ¬false = true ∨
      false = true ∧ ¬containsSub (str "\x7d") s = true) := by
    simp
  rw [if_neg hc1, if_neg (by omega : ¬ 0 > countc '\x7d' s)]

theorem stripStage_id (t : Str) (h : '`' ∉ t) : stripStage t = t := by
  unfold stripStage
  rw [stripFenceStartA_id t h, stripFenceEndA_id t h, removeFenceJsonAll,
    removeFenceJsonGo_id t h, removeBtRunsAll, removeBtRunsGo_id t h]

theorem sliceOpen_id (t : Str) (h : '\x7b' ∉ t) : sliceOpen t = t := by
  unfold sliceOpen
  rw [idxOfChar_none _ t h]

theorem mem_of_mem_sliceClose (c : Char) (t : Str) (h : c ∈ sliceClose t) : c ∈ t := by
  unfold sliceClose at h
  cases hlast : lastIdxOfChar '\x7d' t with
  | none => rw [hlast] at h; exact h
  | some j =>
    rw [hlast] at h
    have h2 : c ∈ (if j > 0 ∧ j + 1 < t.length then t.take (j + 1) else t) := h
    by_cases hj : j > 0 ∧ j + 1 < t.length
    · rw [if_pos hj] at h2
      exact (List.take_sublist _ _).subset h2
    · rw [if_neg hj] at h2
      exact h2

theorem parseCleaned_prose (resp t : Str) (h : '\x7b' ∉ t) :
    parseCleaned resp t = .ok (extractContentFromText resp) := by
  unfold parseCleaned
  rw [braceSpan_none t h]

/-- C4: on pure prose — no brace, no double quote, no backtick, and a
nonempty trimmed body — `parseResponse` neither throws nor needs the catch
branch: it returns the raw-text placeholder `extractContentFromText`
(letter = a prefix of at most 800 characters of the raw text, the other
fields canned defaults).  The original claim additionally promised a
GeneratedReply-shaped record for every input; the counterexample shows a
syntactically valid but fieldless JSON input is returned as-is with all
four fields undefined. -/
theorem C4_prose_fallback (s : Str) (hb : '\x7b' ∉ s) (hq : '"' ∉ s)
    (hbt : '`' ∉ s) (hne : trim s ≠ []) :
    parseResponse s = extractContentFromText s := by
  have hsne : s ≠ [] := fun h0 => hne (by rw [h0]; rfl)
  have hbt2 : '`' ∉ trim s := fun hm => hbt (mem_of_mem_trim _ s hm)
  have hb2 : '\x7b' ∉ trim s := fun hm => hb (mem_of_mem_trim _ s hm)
  have hbody : parseRespBody s = .ok (extractContentFromText s) := by
    unfold parseRespBody
    rw [accumulateJsonChunks_id s hb hq, if_neg hsne, if_neg hne,
      stripStage_id _ hbt2]
    rw [sliceBraces, sliceOpen_id _ hb2]
    exact parseCleaned_prose s _ (fun hm => hb2 (mem_of_mem_sliceClose _ _ hm))
  unfold parseResponse
  rw [hbody]

/-- C4 witness: a concrete prose reply takes the placeholder path. -/
theorem C4_witness :
    parseResponse (str "親愛的朋友，願你平安。") =
      extractContentFromText (str "親愛的朋友，願你平安。") :=
  C4_prose_fallback (str "親愛的朋友，願你平安。")
    (by decide) (by decide) (by decide) (by decide)

/-- C4 counterexample: the fieldless but syntactically valid input
text of an empty JSON object parses successfully and is returned as-is, so
all four reply fields are undefined — not the promised minimal valid
placeholder record. -/
theorem C4_counterexample :
    jbeq (parseResponse (str "\x7b\x7d")) (.jobj []) = true ∧
    (jget (parseResponse (str "\x7b\x7d")) (str "jesusLetter")).isNone = true ∧
    (jget (parseResponse (str "\x7b\x7d")) (str "guidedPrayer")).isNone = true ∧
    (jget (parseResponse (str "\x7b\x7d")) (str "biblicalReferences")).isNone = true ∧
    (jget (parseResponse (str "\x7b\x7d")) (str "coreMessage")).isNone = true := by
  refine ⟨by decide, by decide, by decide, by decide, by decide⟩


/-! ### C5: phrase discipline of the enhancement stage -/

theorem pfx_refl (s : Str) : pfx s s = true :=
  (pfx_iff s s).mpr ⟨[], (List.append_nil s).symm⟩

theorem pfx_take_of_pfx_append (x y p : Str) (h : pfx p (x ++ y) = true) :
    pfx (p.take x.length) x = true := by
  rcases pfx_split_at x y p h with ⟨h1, h2⟩ | ⟨h1, h2, h3⟩
  · rw [List.take_of_length_le h2]
    exact h1
  · rw [h1]
    exact pfx_refl x

theorem straddleB_spec (p x y : Str) (h : straddleB p x y = true) :
    ∃ k, 0 < k ∧ k < p.length ∧ sfx (p.take k) x = true ∧ pfx (p.drop k) y = true := by
  unfold straddleB at h
  simp only [List.any_eq_true, List.mem_range, Bool.and_eq_true, decide_eq_true_eq] at h
  obtain ⟨k, hk, ⟨hk0, hs⟩, hp⟩ := h
  exact ⟨k, hk0, hk, hs, hp⟩

theorem except_bind_ok {α β : Type} (x : Except Str α) (f : α → Except Str β) (b : β)
    (h : (x >>= f) = .ok b) : ∃ a, x = .ok a ∧ f a = .ok b := by
  cases x with
  | error e => exact absurd h (by simp [Bind.bind, Except.bind])
  | ok a => exact ⟨a, rfl, by simpa [Bind.bind, Except.bind] using h⟩

theorem jor_truthy (o : Option JVal) (d : JVal) (hd : truthy (some d) = true) :
    truthy (some (jor o d)) = true := by
  unfold jor
  by_cases h : truthy o = true
  · rw [if_pos h]
    cases o with
    | none => exact absurd h (by decide)
    | some v => exact h
  · rw [if_neg h]
    exact hd

theorem append_ne_nil_left (x y : Str) (h : x ≠ []) : x ++ y ≠ [] := by
  cases x with
  | nil => exact absurd rfl h
  | cons c cs => simp

theorem defaultGuidedPrayer_truthy (ui : UserInput) :
    truthy (some (.jstr (defaultGuidedPrayer ui))) = true := by
  have h : defaultGuidedPrayer ui ≠ [] := by
    unfold defaultGuidedPrayer
    exact append_ne_nil_left _ _ (append_ne_nil_left _ _ (append_ne_nil_left _ _
      (append_ne_nil_left _ _ (append_ne_nil_left _ _ (append_ne_nil_left _ _
        (by decide))))))
  simp [truthy, h]

theorem defaultJesusLetter_truthy (ui : UserInput) :
    truthy (some (.jstr (defaultJesusLetter ui))) = true := by
  have h : defaultJesusLetter ui ≠ [] := by
    unfold defaultJesusLetter
    exact append_ne_nil_left _ _ (append_ne_nil_left _ _ (by decide))
  simp [truthy, h]

theorem cleanJesusLetter_ok (o : Option JVal) (l : Str)
    (h : cleanJesusLetter o = .ok l) :
    l = [] ∨ ∃ s, l = cleanJesusLetterStr s := by
  unfold cleanJesusLetter at h
  by_cases ht : truthy o = true
  · rw [if_neg (by simp [ht])] at h
    cases o with
    | none => exact absurd ht (by decide)
    | some v =>
      cases v with
      | jstr s =>
        right
        refine ⟨s, ?_⟩
        injection h with h2
        exact h2.symm
      | jnum n => cases h
      | jbool b => cases h
      | jnull => cases h
      | jarr xs => cases h
      | jobj fs => cases h
  · rw [if_pos ht] at h
    left
    injection h with h2
    exact h2.symm

theorem cleanGuidedPrayer_ok_truthy (o : Option JVal) (l : Str)
    (ht : truthy o = true) (h : cleanGuidedPrayer o = .ok l) :
    ∃ s, l = cleanGuidedPrayerStr s := by
  unfold cleanGuidedPrayer at h
  rw [if_neg (by simp [ht])] at h
  cases o with
  | none => exact absurd ht (by decide)
  | some v =>
    cases v with
    | jstr s =>
      refine ⟨s, ?_⟩
      injection h with h2
      exact h2.symm
    | jnum n => cases h
    | jbool b => cases h
    | jnull => cases h
    | jarr xs => cases h
    | jobj fs => cases h

theorem cleanGuidedPrayerStr_pfx (s : Str) :
    pfx (str "我來為您禱告") (cleanGuidedPrayerStr s) = true := by
  unfold cleanGuidedPrayerStr
  by_cases h : pfx (str "我來為您禱告") (trim s) = true
  · rw [if_pos h]
    exact h
  · rw [if_neg h]
    exact pfx_extend _ _ _ (by decide)

theorem enhancedPrayer_pfx (p1 : Str) (ui : UserInput) (l2 : Str)
    (h : pfx (str "我來為您禱告") p1 = true) :
    pfx (str "我來為您禱告") (enhancedPrayer p1 ui l2) = true := by
  unfold enhancedPrayer
  by_cases hl : p1.length < 300
  · rw [if_pos hl]
    unfold enhanceGuidedPrayer
    exact pfx_extend _ _ _ h
  · rw [if_neg hl]
    exact h

theorem cleanJesusLetterStr_no_phrase (s : Str) :
    containsSub prayerPhrase (cleanJesusLetterStr s) = false := by
  by_contra hcc
  rw [Bool.not_eq_false] at hcc
  unfold cleanJesusLetterStr at hcc
  have h1 := containsSub_trim _ _ hcc
  have h2 := containsSub_sub (str "如果您願意，可以跟著一起唸") prayerPhrase _
    ⟨str "我來為您禱告，", [], by decide⟩ h1
  rw [removeToEnd_not_contain _ _ (by decide)] at h2
  exact absurd h2 (by decide)

set_option maxRecDepth 4000 in
theorem letterEnhancement_no_phrase (ui : UserInput)
    (htopic : containsSub prayerPhrase ui.topic = false) :
    containsSub prayerPhrase (letterEnhancement ui) = false := by
  unfold letterEnhancement
  by_contra hcc
  rw [Bool.not_eq_false] at hcc
  rw [List.append_assoc] at hcc
  rcases containsSub_decomp prayerPhrase _ _ (by decide) hcc with h1 | h2 | h3
  · exact absurd h1 (by decide)
  · rcases containsSub_decomp prayerPhrase _ _ (by decide) h2 with h4 | h5 | h6
    · rw [htopic] at h4
      exact absurd h4 (by decide)
    · exact absurd h5 (by decide)
    · obtain ⟨k, hk0, hklen, hsfx, hpfx⟩ := straddleB_spec _ _ _ h6
      have hall : ∀ m ∈ List.range prayerPhrase.length,
          pfx (prayerPhrase.drop m)
            (str "方面所面臨的挑戰。每一個困難都是成長的機會，每一次眼淚都被我珍藏。\n\n記住，我曾說過：\"凡勞苦擔重擔的人可以到我這裡來，我就使你們得安息。\"（馬太福音 11:28）你不是孤單的，我一直與你同在。\n\n在這個過程中，請相信我的計劃是美好的。雖然現在可能看不清前路，但我會一步步引導你。就像牧羊人引導羊群一樣，我會帶領你走過這個困難時期。\n\n願我的平安充滿你的心，願我的愛成為你的力量。\n\n") = false := by
        decide
      have hm := hall k (List.mem_range.mpr hklen)
      rw [hm] at hpfx
      exact absurd hpfx (by decide)
  · obtain ⟨k, hk0, hklen, hsfx, hpfx⟩ := straddleB_spec _ _ _ h3
    have hall : ∀ m ∈ List.range prayerPhrase.length, 0 < m →
        sfx (prayerPhrase.take m) (str "\n\n\n我深深理解你在") = false := by
      decide
    have hm := hall k (List.mem_range.mpr hklen) hk0
    rw [hm] at hsfx
    exact absurd hsfx (by decide)

set_option maxRecDepth 4000 in
theorem enhancedLetter_no_phrase (l1 : Str) (ui : UserInput)
    (hl1 : containsSub prayerPhrase l1 = false)
    (htopic : containsSub prayerPhrase ui.topic = false) :
    containsSub prayerPhrase (enhancedLetter l1 ui) = false := by
  unfold enhancedLetter
  by_cases h : l1.length < 350
  · rw [if_pos h]
    unfold enhanceJesusLetter
    by_contra hcc
    rw [Bool.not_eq_false] at hcc
    rcases containsSub_decomp prayerPhrase _ _ (by decide) hcc with h1 | h2 | h3
    · rw [hl1] at h1
      exact absurd h1 (by decide)
    · rw [letterEnhancement_no_phrase ui htopic] at h2
      exact absurd h2 (by decide)
    · obtain ⟨k, hk0, hklen, hsfx, hpfx⟩ := straddleB_spec _ _ _ h3
      unfold letterEnhancement at hpfx
      rw [List.append_assoc] at hpfx
      have hA := pfx_take_of_pfx_append _ _ _ hpfx
      have hall : ∀ m ∈ List.range prayerPhrase.length,
          pfx ((prayerPhrase.drop m).take (str "\n\n\n我深深理解你在").length)
            (str "\n\n\n我深深理解你在") = false := by decide
      have hm := hall k (List.mem_range.mpr hklen)
      rw [hm] at hA
      exact absurd hA (by decide)
  · rw [if_neg h]
    exact hl1

/-- C5: in every reply the enhancement stage returns, the prayer starts
with the six-character opener 我來為您禱告, and — provided the request
topic does not itself contain the full invitation phrase, which the code
would paste into the letter enhancement verbatim — the letter never
contains the full canonical invitation phrase
我來為您禱告，如果您願意，可以跟著一起唸.  The frozen claim instead
promised the prayer always starts with the full phrase; the counterexample
shows a long prayer opening with 我來為您禱告。 is kept verbatim. -/
theorem C5_phrase_discipline (resp : RespIn) (ui : UserInput) (out : EnhOut)
    (hok : validateAndEnhanceResponse resp ui = .ok out)
    (htopic : containsSub prayerPhrase ui.topic = false) :
    containsSub prayerPhrase out.jesusLetter = false ∧
    pfx (str "我來為您禱告") out.guidedPrayer = true := by
  unfold validateAndEnhanceResponse at hok
  obtain ⟨l1, hA, hok⟩ := except_bind_ok _ _ _ hok
  obtain ⟨p1, hB, hok⟩ := except_bind_ok _ _ _ hok
  obtain ⟨r1, hC, hok⟩ := except_bind_ok _ _ _ hok
  obtain ⟨r2, hD, hok⟩ := except_bind_ok _ _ _ hok
  injection hok with hout
  subst hout
  constructor
  · rcases cleanJesusLetter_ok _ _ hA with hnil | ⟨s, hs⟩
    · subst hnil
      exact enhancedLetter_no_phrase [] ui (by decide) htopic
    · subst hs
      exact enhancedLetter_no_phrase _ ui (cleanJesusLetterStr_no_phrase s) htopic
  · have hp0t : truthy (some (jor resp.guidedPrayer (.jstr (defaultGuidedPrayer ui)))) = true :=
      jor_truthy _ _ (defaultGuidedPrayer_truthy ui)
    obtain ⟨s, hs⟩ := cleanGuidedPrayer_ok_truthy _ _ hp0t hB
    subst hs
    exact enhancedPrayer_pfx _ ui _ (cleanGuidedPrayerStr_pfx s)


set_option maxRecDepth 8000 in
/-- C5 witness: the all-defaults reply satisfies both phrase properties. -/
theorem C5_witness :
    containsSub prayerPhrase
      ((validateAndEnhanceResponse ⟨none, none, none, none⟩ uiSample).toOption.getD
        ⟨[], [], [], .jnull⟩).jesusLetter = false ∧
    pfx (str "我來為您禱告")
      ((validateAndEnhanceResponse ⟨none, none, none, none⟩ uiSample).toOption.getD
        ⟨[], [], [], .jnull⟩).guidedPrayer = true :=
  C5_phrase_discipline ⟨none, none, none, none⟩ uiSample _ (by rfl) (by decide)

set_option maxRecDepth 8000 in
/-- C5 counterexample: a 307-character prayer that opens with 我來為您禱告。
is kept verbatim by the enhancement stage, so the returned prayer does not
start with the full canonical invitation phrase, refuting the frozen
claim's full-phrase promise. -/
theorem C5_counterexample :
    (validateAndEnhanceResponse
      ⟨none, some (.jstr (str "我來為您禱告。" ++ List.replicate 300 '主')), none, none⟩
      uiSample).isOk = true ∧
    pfx prayerPhrase
      ((validateAndEnhanceResponse
        ⟨none, some (.jstr (str "我來為您禱告。" ++ List.replicate 300 '主')), none, none⟩
        uiSample).toOption.getD ⟨[], [], [], .jnull⟩).guidedPrayer = false := by
  constructor
  · decide
  · decide


/-! ### C7: idempotence of the enhancement stage -/

theorem except_ok_bind {α β : Type} (a : α) (f : α → Except Str β) :
    ((Except.ok a : Except Str α) >>= f) = f a := rfl

theorem mapRefs_id (rs : List JVal) (h : ∀ e ∈ rs, wrapRef e = .ok e) :
    mapRefs rs = .ok rs := by
  induction rs with
  | nil => rfl
  | cons r rs ih =>
    unfold mapRefs
    rw [h r (List.mem_cons_self r rs), ih (fun e he => h e (List.mem_cons_of_mem r he))]

/-- C7: the enhancement stage is a no-op — hence idempotent — on a reply
whose letter is clean (prayer boilerplate free and trimmed) and at least
350 characters, whose prayer is trimmed, opens with 我來為您禱告 and is at
least 300 characters, whose references are at least five already-normalized
five-field records, and whose core message is truthy.  The frozen claim
promised this from the length and count thresholds alone; the
counterexample shows a threshold-meeting first-pass output whose letter
still changes on the second pass (its appended enhancement ends in
newlines that the second cleaning trims away). -/
theorem C7_fixed_point (ui : UserInput) (L Pr : Str) (refs : List JVal) (C : JVal)
    (hL : cleanJesusLetterStr L = L) (hLlen : 350 ≤ L.length)
    (hPr : trim Pr = Pr) (hPfx : pfx (str "我來為您禱告") Pr = true)
    (hPlen : 300 ≤ Pr.length)
    (hrefs : ∀ e ∈ refs, wrapRef e = .ok e) (hrlen : 5 ≤ refs.length)
    (hC : truthy (some C) = true) :
    validateAndEnhanceResponse ⟨some (.jstr L), some (.jstr Pr), some (.jarr refs), some C⟩ ui
      = .ok ⟨L, Pr, refs, C⟩ := by
  have hLne : L ≠ [] := by
    intro h0
    rw [h0] at hLlen
    simp at hLlen
  have hPne : Pr ≠ [] := by
    intro h0
    rw [h0] at hPlen
    simp at hPlen
  have htL : truthy (some (JVal.jstr L)) = true := by simp [truthy, hLne]
  have htP : truthy (some (JVal.jstr Pr)) = true := by simp [truthy, hPne]
  have e1 : jor (some (.jstr L)) (.jstr (defaultJesusLetter ui)) = .jstr L := by
    unfold jor
    rw [if_pos htL]
    rfl
  have e1p : jor (some (.jstr Pr)) (.jstr (defaultGuidedPrayer ui)) = .jstr Pr := by
    unfold jor
    rw [if_pos htP]
    rfl
  have e1r : jor (some (.jarr refs)) (.jarr [.jstr (str "約翰福音 3:16")]) = .jarr refs := by
    unfold jor
    rw [if_pos (by simp [truthy])]
    rfl
  have e1c : jor (some C) (.jstr (str "神愛你，祂必與你同在")) = C := by
    unfold jor
    rw [if_pos hC]
    rfl
  have e2 : cleanJesusLetter (some (.jstr L)) = .ok L := by
    unfold cleanJesusLetter
    rw [if_neg (by simp [htL])]
    show Except.ok (cleanJesusLetterStr L) = Except.ok L
    rw [hL]
  have e3 : cleanGuidedPrayer (some (.jstr Pr)) = .ok Pr := by
    unfold cleanGuidedPrayer
    rw [if_neg (by simp [htP])]
    show Except.ok (cleanGuidedPrayerStr Pr) = Except.ok Pr
    unfold cleanGuidedPrayerStr
    rw [hPr, if_pos hPfx]
  have e4 : enhancedRefs (.jarr refs) ui = .ok (.jarr refs) := by
    unfold enhancedRefs
    have h45 : lt5 (lengthProp (.jarr refs)) = false := by
      simp only [lengthProp, lt5, decide_eq_false_iff_not]
      omega
    rw [h45]
    rfl
  have e5 : mapWrap (.jarr refs) = .ok refs := by
    show mapRefs refs = .ok refs
    exact mapRefs_id refs hrefs
  have e7 : enhancedLetter L ui = L := by
    unfold enhancedLetter
    rw [if_neg (by omega)]
  have e8 : enhancedPrayer Pr ui L = Pr := by
    unfold enhancedPrayer
    rw [if_neg (by omega)]
  unfold validateAndEnhanceResponse
  rw [e1, e1p, e1r, e1c, e2, e3, e4, except_ok_bind, except_ok_bind, except_ok_bind, e5,
    except_ok_bind, e7, e8]

set_option maxRecDepth 8000 in
/-- C7 witness: a concrete threshold-meeting, already-clean reply is
returned verbatim by the enhancement stage. -/
theorem C7_witness :
    validateAndEnhanceResponse
      ⟨some (.jstr c7L), some (.jstr c7P), some (.jarr c7refs), some (.jstr (str "平安"))⟩
      uiSample = .ok ⟨c7L, c7P, c7refs, .jstr (str "平安")⟩ :=
  C7_fixed_point uiSample c7L c7P c7refs (.jstr (str "平安"))
    (by decide) (by decide) (by decide) (by decide) (by decide)
    (by
      intro e he
      simp only [c7refs, List.mem_cons, List.not_mem_nil, or_false] at he
      rcases he with rfl | rfl | rfl | rfl | rfl <;> rfl)
    (by decide) (by decide)

set_option maxRecDepth 8000 in
/-- C7 counterexample: the first pass over a 349-character letter returns a
reply meeting every threshold, yet a second pass changes the letter (the
appended enhancement ends in blank lines that the second cleaning trims),
refuting idempotence from the thresholds alone. -/
theorem C7_counterexample :
    350 ≤ c7Pass1.jesusLetter.length ∧
    300 ≤ c7Pass1.guidedPrayer.length ∧
    5 ≤ c7Pass1.biblicalReferences.length ∧
    (validateAndEnhanceResponse (toRespIn c7Pass1) uiSample).isOk = true ∧
    ((validateAndEnhanceResponse (toRespIn c7Pass1) uiSample).toOption.getD
        ⟨[], [], [], .jnull⟩).jesusLetter ≠ c7Pass1.jesusLetter := by
  refine ⟨by decide, by decide, by decide, by decide, by decide⟩


/-! ### Equality theory of the SameValueZero comparison -/

mutual

theorem jbeq_eq (a b : JVal) (h : jbeq a b = true) : a = b := by
  cases a with
  | jstr x =>
    cases b with
    | jstr y =>
      simp only [jbeq, beq_iff_eq] at h
      rw [h]
    | jnum y => exact absurd h (by simp [jbeq])
    | jbool y => exact absurd h (by simp [jbeq])
    | jnull => exact absurd h (by simp [jbeq])
    | jarr ys => exact absurd h (by simp [jbeq])
    | jobj ys => exact absurd h (by simp [jbeq])
  | jnum x =>
    cases b with
    | jnum y =>
      simp only [jbeq, beq_iff_eq] at h
      rw [h]
    | jstr y => exact absurd h (by simp [jbeq])
    | jbool y => exact absurd h (by simp [jbeq])
    | jnull => exact absurd h (by simp [jbeq])
    | jarr ys => exact absurd h (by simp [jbeq])
    | jobj ys => exact absurd h (by simp [jbeq])
  | jbool x =>
    cases b with
    | jbool y =>
      simp only [jbeq, beq_iff_eq] at h
      rw [h]
    | jstr y => exact absurd h (by simp [jbeq])
    | jnum y => exact absurd h (by simp [jbeq])
    | jnull => exact absurd h (by simp [jbeq])
    | jarr ys => exact absurd h (by simp [jbeq])
    | jobj ys => exact absurd h (by simp [jbeq])
  | jnull =>
    cases b with
    | jnull => rfl
    | jstr y => exact absurd h (by simp [jbeq])
    | jnum y => exact absurd h (by simp [jbeq])
    | jbool y => exact absurd h (by simp [jbeq])
    | jarr ys => exact absurd h (by simp [jbeq])
    | jobj ys => exact absurd h (by simp [jbeq])
  | jarr xs =>
    cases b with
    | jarr ys =>
      simp only [jbeq] at h
      rw [jbeqList_eq xs ys h]
    | jstr y => exact absurd h (by simp [jbeq])
    | jnum y => exact absurd h (by simp [jbeq])
    | jbool y => exact absurd h (by simp [jbeq])
    | jnull => exact absurd h (by simp [jbeq])
    | jobj ys => exact absurd h (by simp [jbeq])
  | jobj xs =>
    cases b with
    | jobj ys =>
      simp only [jbeq] at h
      rw [jbeqFields_eq xs ys h]
    | jstr y => exact absurd h (by simp [jbeq])
    | jnum y => exact absurd h (by simp [jbeq])
    | jbool y => exact absurd h (by simp [jbeq])
    | jnull => exact absurd h (by simp [jbeq])
    | jarr ys => exact absurd h (by simp [jbeq])

theorem jbeqList_eq (xs ys : List JVal) (h : jbeqList xs ys = true) : xs = ys := by
  cases xs with
  | nil =>
    cases ys with
    | nil => rfl
    | cons y ys => exact absurd h (by simp [jbeqList])
  | cons x xs =>
    cases ys with
    | nil => exact absurd h (by simp [jbeqList])
    | cons y ys =>
      simp only [jbeqList, Bool.and_eq_true] at h
      rw [jbeq_eq x y h.1, jbeqList_eq xs ys h.2]

theorem jbeqFields_eq (xs ys : List (Str × JVal)) (h : jbeqFields xs ys = true) : xs = ys := by
  cases xs with
  | nil =>
    cases ys with
    | nil => rfl
    | cons y ys => exact absurd h (by simp [jbeqFields])
  | cons x xs =>
    obtain ⟨k1, v1⟩ := x
    cases ys with
    | nil => exact absurd h (by simp [jbeqFields])
    | cons y ys =>
      obtain ⟨k2, v2⟩ := y
      simp only [jbeqFields, Bool.and_eq_true] at h
      rw [eq_of_beq h.1.1, jbeq_eq v1 v2 h.1.2, jbeqFields_eq xs ys h.2]

end

mutual

theorem jbeq_refl (a : JVal) : jbeq a a = true := by
  cases a with
  | jstr x => simp [jbeq]
  | jnum x => simp [jbeq]
  | jbool x => simp [jbeq]
  | jnull => rfl
  | jarr xs =>
    show jbeqList xs xs = true
    exact jbeqList_refl xs
  | jobj xs =>
    show jbeqFields xs xs = true
    exact jbeqFields_refl xs

theorem jbeqList_refl (xs : List JVal) : jbeqList xs xs = true := by
  cases xs with
  | nil => rfl
  | cons x xs =>
    show (jbeq x x && jbeqList xs xs) = true
    rw [jbeq_refl x, jbeqList_refl xs]
    rfl

theorem jbeqFields_refl (xs : List (Str × JVal)) : jbeqFields xs xs = true := by
  cases xs with
  | nil => rfl
  | cons x xs =>
    obtain ⟨k, v⟩ := x
    show ((k == k) && jbeq v v && jbeqFields xs xs) = true
    rw [jbeq_refl v, jbeqFields_refl xs]
    simp

end

theorem optJbeq_eq (x y : Option JVal) : optJbeq x y = true ↔ x = y := by
  cases x with
  | none =>
    cases y with
    | none => simp [optJbeq]
    | some b => simp [optJbeq]
  | some a =>
    cases y with
    | none => simp [optJbeq]
    | some b =>
      show jbeq a b = true ↔ some a = some b
      constructor
      · intro h
        rw [jbeq_eq a b h]
      · intro h
        injection h with h2
        rw [h2]
        exact jbeq_refl b

theorem seenHas_iff (seen : List (Option JVal)) (k : Option JVal) :
    seenHas seen k = true ↔ k ∈ seen := by
  unfold seenHas
  rw [List.any_eq_true]
  constructor
  · rintro ⟨s, hs, ho⟩
    rw [(optJbeq_eq k s).mp ho]
    exact hs
  · intro hk
    exact ⟨k, hk, (optJbeq_eq k k).mpr rfl⟩


/-! ### Counting and collection lemmas for the reference dedup loop -/

theorem countP_members (p q : JVal → Bool) :
    ∀ (l : List JVal), (∀ a ∈ l, p a = q a) → l.countP p = l.countP q := by
  intro l
  induction l with
  | nil => intro _; rfl
  | cons a l ih =>
    intro h
    rw [List.countP_cons, List.countP_cons, ih (fun x hx => h x (List.mem_cons_of_mem a hx)),
      h a (List.mem_cons_self a l)]

theorem countP_not_split (p : JVal → Bool) :
    ∀ (l : List JVal), l.countP p + l.countP (fun a => !(p a)) = l.length := by
  intro l
  induction l with
  | nil => rfl
  | cons a l ih =>
    rw [List.countP_cons, List.countP_cons, List.length_cons]
    by_cases h : p a = true
    · rw [if_pos h, if_neg (by rw [h]; decide)]
      omega
    · rw [if_neg h, if_pos (by rw [Bool.not_eq_true] at h; rw [h]; decide)]
      omega

theorem verseKeyE_of_ok (r : JVal) (h : keyOkB r = true) :
    verseKeyE r = .ok (verseKeyOf r) := by
  unfold keyOkB at h
  unfold verseKeyOf
  cases hk : verseKeyE r with
  | error e =>
    rw [hk] at h
    exact absurd h (by simp)
  | ok k => rfl

theorem blocked_le_seen (rs : List JVal) :
    ∀ (seen : List (Option JVal)), keysDistinctB rs = true →
    rs.countP (fun r => seenHas seen (verseKeyOf r)) ≤ seen.length := by
  classical
  induction rs with
  | nil =>
    intro seen _
    simp [List.countP_nil]
  | cons r rs ih =>
    intro seen hd
    unfold keysDistinctB at hd
    rw [Bool.and_eq_true, List.all_eq_true] at hd
    obtain ⟨hall, htail⟩ := hd
    rw [List.countP_cons]
    by_cases hb : seenHas seen (verseKeyOf r) = true
    · have hmem : verseKeyOf r ∈ seen := (seenHas_iff _ _).mp hb
      have heq : rs.countP (fun q => seenHas seen (verseKeyOf q)) =
          rs.countP (fun q => seenHas (seen.erase (verseKeyOf r)) (verseKeyOf q)) := by
        apply countP_members
        intro q hq
        have hne : verseKeyOf q ≠ verseKeyOf r := by
          intro hqr
          have h1 := hall q hq
          rw [Bool.not_eq_true'] at h1
          rw [hqr, (optJbeq_eq _ _).mpr rfl] at h1
          exact absurd h1 (by decide)
        have hiff : (seenHas seen (verseKeyOf q) = true) ↔
            (seenHas (seen.erase (verseKeyOf r)) (verseKeyOf q) = true) := by
          rw [seenHas_iff, seenHas_iff, List.mem_erase_of_ne hne]
        cases h1 : seenHas seen (verseKeyOf q) with
        | true => exact (hiff.mp h1).symm
        | false =>
          cases h2 : seenHas (seen.erase (verseKeyOf r)) (verseKeyOf q) with
          | true =>
            rw [hiff.mpr h2] at h1
            exact absurd h1 (by decide)
          | false => rfl
      have hlen : (seen.erase (verseKeyOf r)).length = seen.length - 1 :=
        List.length_erase_of_mem hmem
      have hpos : 0 < seen.length := List.length_pos.mpr (by
        intro h0
        rw [h0] at hmem
        exact absurd hmem (List.not_mem_nil _))
      have hrec := ih (seen.erase (verseKeyOf r)) htail
      rw [heq, if_pos hb]
      omega
    · rw [if_neg hb]
      have hrec := ih seen htail
      omega

theorem uniqFold_lockstep (rs : List JVal) : ∀ seen acc q,
    uniqFold rs seen acc = .ok q →
    q.1.length + acc.length = q.2.length + seen.length := by
  induction rs with
  | nil =>
    intro seen acc q h
    injection h with h2
    subst h2
    show seen.length + acc.length = acc.length + seen.length
    omega
  | cons r rs ih =>
    intro seen acc q h
    unfold uniqFold at h
    cases hk : verseKeyE r with
    | error e =>
      rw [hk] at h
      exact absurd h (by simp)
    | ok k =>
      simp only [hk] at h
      by_cases hc : ¬ seenHas seen k = true ∧ acc.length < 7
      · rw [if_pos hc] at h
        have := ih _ _ _ h
        simp only [List.length_append, List.length_cons, List.length_nil] at this ⊢
        omega
      · rw [if_neg hc] at h
        exact ih _ _ _ h

theorem uniqFold_ub (rs : List JVal) : ∀ seen acc q, acc.length ≤ 7 →
    uniqFold rs seen acc = .ok q → q.2.length ≤ 7 := by
  induction rs with
  | nil =>
    intro seen acc q hacc h
    injection h with h2
    rw [← h2]
    exact hacc
  | cons r rs ih =>
    intro seen acc q hacc h
    unfold uniqFold at h
    cases hk : verseKeyE r with
    | error e =>
      rw [hk] at h
      exact absurd h (by simp)
    | ok k =>
      simp only [hk] at h
      by_cases hc : ¬ seenHas seen k = true ∧ acc.length < 7
      · rw [if_pos hc] at h
        exact ih _ _ _ (by simp only [List.length_append, List.length_cons, List.length_nil]; omega) h
      · rw [if_neg hc] at h
        exact ih _ _ _ hacc h

theorem newCount_seen_cons (rs : List JVal) (k : Option JVal) (seen : List (Option JVal))
    (hnone : ∀ q ∈ rs, optJbeq (verseKeyOf q) k = false) :
    newCount rs (k :: seen) = newCount rs seen := by
  unfold newCount
  induction rs with
  | nil => rfl
  | cons q qs ih =>
    rw [List.countP_cons, List.countP_cons,
      ih (fun x hx => hnone x (List.mem_cons_of_mem q hx))]
    have h1 : seenHas (k :: seen) (verseKeyOf q) = seenHas seen (verseKeyOf q) := by
      show (optJbeq (verseKeyOf q) k || seenHas seen (verseKeyOf q)) = _
      rw [hnone q (List.mem_cons_self q qs)]
      rw [Bool.false_or]
    rw [h1]

theorem uniqFold_min (rs : List JVal) : ∀ seen acc, acc.length ≤ 7 →
    (∀ r ∈ rs, keyOkB r = true) → keysDistinctB rs = true →
    ∃ q, uniqFold rs seen acc = .ok q ∧
      min 7 (acc.length + newCount rs seen) ≤ q.2.length ∧ q.2.length ≤ 7 := by
  induction rs with
  | nil =>
    intro seen acc hacc _ _
    refine ⟨(seen, acc), rfl, ?_, hacc⟩
    unfold newCount
    simp only [List.countP_nil]
    omega
  | cons r rs ih =>
    intro seen acc hacc hok hd
    unfold keysDistinctB at hd
    rw [Bool.and_eq_true, List.all_eq_true] at hd
    obtain ⟨hall, htail⟩ := hd
    have hke := verseKeyE_of_ok r (hok r (List.mem_cons_self r rs))
    have hcount : newCount (r :: rs) seen =
        newCount rs seen + (if seenHas seen (verseKeyOf r) = true then 0 else 1) := by
      unfold newCount
      rw [List.countP_cons]
      by_cases hb : seenHas seen (verseKeyOf r) = true
      · rw [if_pos hb, hb]
        simp
      · rw [if_neg hb]
        rw [Bool.not_eq_true] at hb
        rw [hb]
        simp
    unfold uniqFold
    simp only [hke]
    by_cases hc : ¬ seenHas seen (verseKeyOf r) = true ∧ acc.length < 7
    · rw [if_pos hc]
      have hnone : ∀ q ∈ rs, optJbeq (verseKeyOf q) (verseKeyOf r) = false := by
        intro q hq
        have h1 := hall q hq
        rw [Bool.not_eq_true'] at h1
        exact h1
      obtain ⟨q, hq, hmin, hub⟩ := ih (verseKeyOf r :: seen) (acc ++ [r])
        (by simp only [List.length_append, List.length_cons, List.length_nil]; omega)
        (fun x hx => hok x (List.mem_cons_of_mem r hx)) htail
      refine ⟨q, hq, ?_, hub⟩
      rw [newCount_seen_cons rs (verseKeyOf r) seen hnone] at hmin
      simp only [List.length_append, List.length_cons, List.length_nil] at hmin
      have hbf : seenHas seen (verseKeyOf r) = false := by
        rw [← Bool.not_eq_true]
        exact hc.1
      rw [hcount, hbf]
      simp only [if_neg (by decide : ¬ (false = true))]
      omega
    · rw [if_neg hc]
      obtain ⟨q, hq, hmin, hub⟩ := ih seen acc hacc
        (fun x hx => hok x (List.mem_cons_of_mem r hx)) htail
      refine ⟨q, hq, ?_, hub⟩
      rcases Decidable.not_and_iff_or_not.mp hc with h1 | h2
      · have hbt : seenHas seen (verseKeyOf r) = true := Decidable.not_not.mp h1
        have hc0 : newCount (r :: rs) seen = newCount rs seen := by
          rw [hcount, hbt]
          simp
        rw [hc0]
        exact hmin
      · have h7 : acc.length = 7 := by omega
        clear hcount
        rw [h7] at hmin ⊢
        omega


theorem uniqFold_distinct (rs : List JVal) : ∀ seen acc q,
    uniqFold rs seen acc = .ok q →
    (∀ a ∈ acc, verseKeyOf a ∈ seen) →
    acc.Pairwise (fun a b => verseKeyOf a ≠ verseKeyOf b) →
    (∀ a ∈ q.2, verseKeyOf a ∈ q.1) ∧
    q.2.Pairwise (fun a b => verseKeyOf a ≠ verseKeyOf b) := by
  induction rs with
  | nil =>
    intro seen acc q h hinv hpw
    injection h with h2
    subst h2
    exact ⟨hinv, hpw⟩
  | cons r rs ih =>
    intro seen acc q h hinv hpw
    unfold uniqFold at h
    cases hk : verseKeyE r with
    | error e =>
      rw [hk] at h
      exact absurd h (by simp)
    | ok k =>
      simp only [hk] at h
      have hko : verseKeyOf r = k := by
        unfold verseKeyOf
        rw [hk]
      by_cases hc : ¬ seenHas seen k = true ∧ acc.length < 7
      · rw [if_pos hc] at h
        apply ih _ _ _ h
        · intro a ha
          rcases List.mem_append.mp ha with ha1 | ha2
          · exact List.mem_cons_of_mem k (hinv a ha1)
          · have : a = r := List.mem_singleton.mp ha2
            rw [this, hko]
            exact List.mem_cons_self k seen
        · rw [List.pairwise_append]
          refine ⟨hpw, List.pairwise_singleton _ r, ?_⟩
          intro a ha b hb
          have hb2 : b = r := List.mem_singleton.mp hb
          rw [hb2, hko]
          intro hak
          exact hc.1 ((seenHas_iff seen k).mpr (hak ▸ hinv a ha))
      · rw [if_neg hc] at h
        exact ih _ _ _ h hinv hpw

theorem keysDistinctB_of_pairwise : ∀ (l : List JVal),
    l.Pairwise (fun a b => verseKeyOf a ≠ verseKeyOf b) → keysDistinctB l = true := by
  intro l h
  induction l with
  | nil => rfl
  | cons r rs ih =>
    rw [List.pairwise_cons] at h
    unfold keysDistinctB
    rw [Bool.and_eq_true]
    refine ⟨List.all_eq_true.mpr ?_, ih h.2⟩
    intro q hq
    rw [Bool.not_eq_true']
    cases hob : optJbeq (verseKeyOf q) (verseKeyOf r) with
    | false => rfl
    | true => exact absurd ((optJbeq_eq _ _).mp hob).symm (h.1 q hq)

theorem mapRefs_length (rs : List JVal) : ∀ ws, mapRefs rs = .ok ws → ws.length = rs.length := by
  induction rs with
  | nil =>
    intro ws h
    injection h with h2
    rw [← h2]
  | cons r rs ih =>
    intro ws h
    unfold mapRefs at h
    cases hw : wrapRef r with
    | error e =>
      rw [hw] at h
      exact absurd h (by simp)
    | ok w =>
      rw [hw] at h
      cases hm : mapRefs rs with
      | error e =>
        rw [hm] at h
        exact absurd h (by simp)
      | ok vs =>
        rw [hm] at h
        injection h with h2
        rw [← h2, List.length_cons, List.length_cons, ih vs hm]

theorem mapRefs_mem (rs : List JVal) : ∀ ws, mapRefs rs = .ok ws →
    ∀ w ∈ ws, ∃ r ∈ rs, wrapRef r = .ok w := by
  induction rs with
  | nil =>
    intro ws h w hw
    injection h with h2
    rw [← h2] at hw
    exact absurd hw (List.not_mem_nil w)
  | cons r rs ih =>
    intro ws h w hw
    unfold mapRefs at h
    cases hwr : wrapRef r with
    | error e =>
      rw [hwr] at h
      exact absurd h (by simp)
    | ok v =>
      rw [hwr] at h
      cases hm : mapRefs rs with
      | error e =>
        rw [hm] at h
        exact absurd h (by simp)
      | ok vs =>
        rw [hm] at h
        injection h with h2
        rw [← h2] at hw
        rcases List.mem_cons.mp hw with h3 | h3
        · exact ⟨r, List.mem_cons_self r rs, by rw [hwr, h3]⟩
        · obtain ⟨r2, hr2, hw2⟩ := ih vs hm w h3
          exact ⟨r2, List.mem_cons_of_mem r hr2, hw2⟩

theorem except_map_ok {α β : Type} (x : Except Str α) (f : α → β) (b : β)
    (h : x.map f = .ok b) : ∃ a, x = .ok a ∧ f a = b := by
  cases x with
  | error e => exact absurd h (by simp [Except.map])
  | ok a =>
    refine ⟨a, rfl, ?_⟩
    simp only [Except.map] at h
    cases h
    rfl

theorem enhanceBiblicalReferences_count (r0 : JVal) (ui : UserInput) (out : List JVal)
    (h : enhanceBiblicalReferences r0 ui = .ok out) :
    5 ≤ out.length ∧ out.length ≤ 7 := by
  unfold enhanceBiblicalReferences at h
  obtain ⟨ex, hex, h⟩ := except_bind_ok _ _ _ h
  obtain ⟨⟨seen1, uniq1⟩, hu1, h⟩ := except_bind_ok _ _ _ h
  have h3 : (if uniq1.length < 5 then
        uniqFold refsFallback seen1 uniq1 >>= fun y =>
          Except.ok (y.2.take 7)
      else (Except.ok (seen1, uniq1) : Except Str (List (Option JVal) × List JVal)) >>=
        fun y => Except.ok (y.2.take 7)) = Except.ok out := h
  have hub1 : uniq1.length ≤ 7 := uniqFold_ub _ _ _ _ (by simp) hu1
  have hlock1 : seen1.length + ([] : List JVal).length =
      uniq1.length + ([] : List (Option JVal)).length := uniqFold_lockstep _ _ _ _ hu1
  simp only [List.length_nil] at hlock1
  by_cases h5 : uniq1.length < 5
  · rw [if_pos h5] at h3
    obtain ⟨q, hq, hmin, hub⟩ := uniqFold_min refsFallback seen1 uniq1
      (by omega) (by decide) (by decide)
    rw [hq] at h3
    have h4 : Except.ok (q.2.take 7) = Except.ok out := h3
    injection h4 with h42
    have hblock := blocked_le_seen refsFallback seen1 (by decide)
    have hsplit := countP_not_split
      (fun r => seenHas seen1 (verseKeyOf r)) refsFallback
    have hlenf : refsFallback.length = 5 := by decide
    have hnc : newCount refsFallback seen1 =
        refsFallback.countP (fun r => !(seenHas seen1 (verseKeyOf r))) := rfl
    rw [← h42, List.length_take]
    have h6 : 5 ≤ uniq1.length + newCount refsFallback seen1 := by omega
    omega
  · rw [if_neg h5] at h3
    have h4 : Except.ok (uniq1.take 7) = Except.ok out := h3
    injection h4 with h42
    rw [← h42, List.length_take]
    omega

theorem enhanceBiblicalReferences_distinct (r0 : JVal) (ui : UserInput) (out : List JVal)
    (h : enhanceBiblicalReferences r0 ui = .ok out) : keysDistinctB out = true := by
  unfold enhanceBiblicalReferences at h
  obtain ⟨ex, hex, h⟩ := except_bind_ok _ _ _ h
  obtain ⟨⟨seen1, uniq1⟩, hu1, h⟩ := except_bind_ok _ _ _ h
  have h3 : (if uniq1.length < 5 then
        uniqFold refsFallback seen1 uniq1 >>= fun y =>
          Except.ok (y.2.take 7)
      else (Except.ok (seen1, uniq1) : Except Str (List (Option JVal) × List JVal)) >>=
        fun y => Except.ok (y.2.take 7)) = Except.ok out := h
  have hd1 := uniqFold_distinct _ _ _ _ hu1
    (fun a ha => absurd ha (List.not_mem_nil a)) List.Pairwise.nil
  by_cases h5 : uniq1.length < 5
  · rw [if_pos h5] at h3
    cases hq : uniqFold refsFallback seen1 uniq1 with
    | error e =>
      rw [hq] at h3
      exact absurd h3 (by simp [Bind.bind, Except.bind])
    | ok q =>
      rw [hq] at h3
      have h4 : Except.ok (q.2.take 7) = Except.ok out := h3
      injection h4 with h42
      have hd2 := (uniqFold_distinct _ _ _ _ hq hd1.1 hd1.2).2
      apply keysDistinctB_of_pairwise
      rw [← h42]
      exact hd2.sublist (List.take_sublist 7 q.2)
  · rw [if_neg h5] at h3
    have h4 : Except.ok (uniq1.take 7) = Except.ok out := h3
    injection h4 with h42
    apply keysDistinctB_of_pairwise
    rw [← h42]
    exact hd1.2.sublist (List.take_sublist 7 uniq1)


/-! ### Glue lemmas for the enhanced reply -/

theorem append_ne_nil_right (x y : Str) (h : y ≠ []) : x ++ y ≠ [] := by
  intro hx
  rw [List.append_eq_nil] at hx
  exact h hx.2

theorem letterEnhancement_ne_nil (ui : UserInput) : letterEnhancement ui ≠ [] := by
  unfold letterEnhancement
  exact append_ne_nil_left _ _ (append_ne_nil_left _ _ (by decide))

theorem enhancedLetter_ne_nil (l1 : Str) (ui : UserInput) : enhancedLetter l1 ui ≠ [] := by
  unfold enhancedLetter
  by_cases h : l1.length < 350
  · rw [if_pos h]
    unfold enhanceJesusLetter
    exact append_ne_nil_right _ _ (letterEnhancement_ne_nil ui)
  · rw [if_neg h]
    intro h0
    rw [h0] at h
    exact h (by simp)

theorem pfx_ne_nil (p s : Str) (hp : p ≠ []) (h : pfx p s = true) : s ≠ [] := by
  obtain ⟨t, rfl⟩ := (pfx_iff p s).mp h
  exact append_ne_nil_left _ _ hp

set_option maxRecDepth 2000 in
theorem prayerEnhancement_ge (info : TopicInfo) (insight : Str) :
    299 ≤ (prayerEnhancement info insight).length := by
  unfold prayerEnhancement
  simp only [List.length_append]
  have h1 : (str "方面可能面臨的挑戰，包括").length = 12 := by decide
  have h2 : (str "。求你親自安慰我們的心，醫治那些隱而未現的傷痛。\n\n就如你透過耶穌向我們所說的話，我們也為此祈求：求你安慰我們的心，除去一切的憂慮和恐懼。讓你的平安如江河一般流淌在我們的心中。\n\n天父，即使我們沒有說出口的重擔，你都看見了。求你親自背負我們的憂慮，讓我們知道不需要獨自承擔。無論是已經分享的困難，還是藏在心底的掙扎，都求你一一眷顧。\n\n求你按著你在耶穌裡的應許，成就在我們身上。讓我們不僅聽見你的話語，更能經歷你話語的能力。\n\n主啊，我們將這一切都交託在你的手中，包括那些說不出來的嘆息和眼淚，相信你必有最好的安排。求你繼續引導和保守我們，讓我們在每一天都能感受到你的同在和愛。").length = 289 := by decide
  omega

theorem enhancedPrayer_ge (p1 : Str) (ui : UserInput) (l2 : Str) :
    300 ≤ (enhancedPrayer p1 ui l2).length := by
  unfold enhancedPrayer
  by_cases h : p1.length < 300
  · rw [if_pos h]
    unfold enhanceGuidedPrayer
    simp only [List.length_append, List.length_cons]
    have := prayerEnhancement_ge (topicMapping ui.topic) (jesusInsight l2)
    omega
  · rw [if_neg h]
    omega

theorem refs_length_bounds (r0 : JVal) (ui : UserInput) (r1 : JVal) (r2 : List JVal)
    (hC : enhancedRefs r0 ui = .ok r1) (hD : mapWrap r1 = .ok r2) :
    5 ≤ r2.length ∧ (lt5 (lengthProp r0) = true → r2.length ≤ 7) := by
  unfold enhancedRefs at hC
  by_cases hlt : lt5 (lengthProp r0) = true
  · rw [if_pos hlt] at hC
    obtain ⟨lst, hE, hjar⟩ := except_map_ok _ _ _ hC
    have hcnt := enhanceBiblicalReferences_count r0 ui lst hE
    subst hjar
    have hm : mapRefs lst = .ok r2 := hD
    have hlen := mapRefs_length lst r2 hm
    exact ⟨by omega, fun _ => by omega⟩
  · rw [if_neg hlt] at hC
    injection hC with h2
    subst h2
    cases r0 with
    | jarr xs =>
      have hm : mapRefs xs = .ok r2 := hD
      have hlen := mapRefs_length xs r2 hm
      have h5 : ¬ xs.length < 5 := by
        intro h5
        exact hlt (by simp [lengthProp, lt5, h5])
      exact ⟨by omega, fun hl => absurd hl hlt⟩
    | jstr s => exact absurd hD (by simp [mapWrap])
    | jnum n => exact absurd hD (by simp [mapWrap])
    | jbool b => exact absurd hD (by simp [mapWrap])
    | jnull => exact absurd hD (by simp [mapWrap])
    | jobj fs => exact absurd hD (by simp [mapWrap])

theorem wrapRef_shape (r w : JVal) (h : wrapRef r = .ok w) : refShapeB w = true := by
  unfold wrapRef at h
  have t1 := jor_truthy (jget r (str "text")) (.jstr (str "請查閱聖經獲取完整經文")) (by decide)
  have t2 := jor_truthy (jget r (str "context")) (.jstr (str "相關背景")) (by decide)
  have t3 := jor_truthy (jget r (str "meaning")) (.jstr (str "屬靈意義")) (by decide)
  have t4 := jor_truthy (jget r (str "application")) (.jstr (str "實際應用")) (by decide)
  cases r with
  | jstr s =>
    injection h with h2
    rw [← h2]
    rfl
  | jnull => exact absurd h (by simp)
  | jnum n =>
    injection h with h2
    rw [← h2]
    simp [refShapeB, t1, t2, t3, t4]
  | jbool b =>
    injection h with h2
    rw [← h2]
    simp [refShapeB, t1, t2, t3, t4]
  | jarr xs =>
    injection h with h2
    rw [← h2]
    simp [refShapeB, t1, t2, t3, t4]
  | jobj fs =>
    injection h with h2
    rw [← h2]
    simp [refShapeB, t1, t2, t3, t4]


/-- C1: for every raw upstream string whose parse-and-enhance run succeeds,
the reply's letter and prayer are non-empty strings, the references list is
non-empty, and the core message is truthy.  The frozen claim promised
success and non-emptiness unconditionally and promised a string core
message; the counterexample shows an upstream reply with a numeric letter
field makes the enhancement stage throw (and a numeric core message would
survive as a non-string). -/
theorem C1_core_fields (s : Str) (ui : UserInput) (out : EnhOut)
    (hok : validateAndEnhanceResponse (respOfJVal (parseResponse s)) ui = .ok out) :
    out.jesusLetter ≠ [] ∧ out.guidedPrayer ≠ [] ∧ out.biblicalReferences ≠ [] ∧
    truthy (some out.coreMessage) = true := by
  unfold validateAndEnhanceResponse at hok
  obtain ⟨l1, hA, hok⟩ := except_bind_ok _ _ _ hok
  obtain ⟨p1, hB, hok⟩ := except_bind_ok _ _ _ hok
  obtain ⟨r1, hC, hok⟩ := except_bind_ok _ _ _ hok
  obtain ⟨r2, hD, hok⟩ := except_bind_ok _ _ _ hok
  injection hok with hout
  subst hout
  refine ⟨enhancedLetter_ne_nil l1 ui, ?_, ?_, ?_⟩
  · have hp0t : truthy (some (jor ((respOfJVal (parseResponse s)).guidedPrayer)
        (.jstr (defaultGuidedPrayer ui)))) = true :=
      jor_truthy _ _ (defaultGuidedPrayer_truthy ui)
    obtain ⟨s2, hs2⟩ := cleanGuidedPrayer_ok_truthy _ _ hp0t hB
    subst hs2
    exact pfx_ne_nil _ _ (by decide)
      (enhancedPrayer_pfx _ ui _ (cleanGuidedPrayerStr_pfx s2))
  · have hb := refs_length_bounds _ ui _ _ hC hD
    have h0 : 0 < r2.length := by omega
    exact List.length_pos.mp h0
  · exact jor_truthy _ _ (by decide)

set_option maxRecDepth 8000 in
/-- C1 witness: a prose reply parses to the placeholder and enhances into a
reply with all four core fields populated. -/
theorem C1_witness :
    ((validateAndEnhanceResponse (respOfJVal (parseResponse (str "你好，請給我一封信。")))
        uiSample).toOption.getD ⟨[], [], [], .jnull⟩).jesusLetter ≠ [] ∧
    ((validateAndEnhanceResponse (respOfJVal (parseResponse (str "你好，請給我一封信。")))
        uiSample).toOption.getD ⟨[], [], [], .jnull⟩).guidedPrayer ≠ [] ∧
    ((validateAndEnhanceResponse (respOfJVal (parseResponse (str "你好，請給我一封信。")))
        uiSample).toOption.getD ⟨[], [], [], .jnull⟩).biblicalReferences ≠ [] ∧
    truthy (some ((validateAndEnhanceResponse
        (respOfJVal (parseResponse (str "你好，請給我一封信。")))
        uiSample).toOption.getD ⟨[], [], [], .jnull⟩).coreMessage) = true :=
  C1_core_fields (str "你好，請給我一封信。") uiSample _ (by rfl)

set_option maxRecDepth 4000 in
/-- C1 counterexample: a syntactically valid upstream reply whose letter
field is the number 5 parses, but the enhancement stage throws on it, so
parse-plus-enhance does not yield a reply for every raw string. -/
theorem C1_counterexample :
    (validateAndEnhanceResponse (respOfJVal (parseResponse illTypedResp))
      uiSample).isOk = false := by
  decide

/-- C2: every reply the enhancement stage returns has a prayer of at least
the 300-character floor and at least 5 scripture references, and when the
incoming reference list was short (fewer than 5 entries, the branch that
tops it up) the reference count is also capped at 7.  The frozen claim
additionally promised the 350-character letter floor and the cap of 7
unconditionally; the counterexample shows a short letter ends below 350
(the fixed enhancement appendix is only 204 characters) and eight incoming
references are kept as eight. -/
theorem C2_thresholds (resp : RespIn) (ui : UserInput) (out : EnhOut)
    (hok : validateAndEnhanceResponse resp ui = .ok out) :
    300 ≤ out.guidedPrayer.length ∧ 5 ≤ out.biblicalReferences.length ∧
    (lt5 (lengthProp (jor resp.biblicalReferences
        (.jarr [.jstr (str "約翰福音 3:16")]))) = true →
      out.biblicalReferences.length ≤ 7) := by
  unfold validateAndEnhanceResponse at hok
  obtain ⟨l1, hA, hok⟩ := except_bind_ok _ _ _ hok
  obtain ⟨p1, hB, hok⟩ := except_bind_ok _ _ _ hok
  obtain ⟨r1, hC, hok⟩ := except_bind_ok _ _ _ hok
  obtain ⟨r2, hD, hok⟩ := except_bind_ok _ _ _ hok
  injection hok with hout
  subst hout
  have hb := refs_length_bounds _ ui _ _ hC hD
  exact ⟨enhancedPrayer_ge p1 ui _, hb.1, hb.2⟩

set_option maxRecDepth 8000 in
/-- C2 witness: a reply with two references is topped up to between 5 and 7
and its prayer meets the 300-character floor. -/
theorem C2_witness :
    300 ≤ ((validateAndEnhanceResponse
        ⟨some (.jstr (str "愛")), some (.jstr (str "主")),
         some (.jarr [.jstr (str "約翰福音 3:16"), .jstr (str "詩篇 23:1")]),
         some (.jstr (str "平安"))⟩ uiSample).toOption.getD
        ⟨[], [], [], .jnull⟩).guidedPrayer.length ∧
    5 ≤ ((validateAndEnhanceResponse
        ⟨some (.jstr (str "愛")), some (.jstr (str "主")),
         some (.jarr [.jstr (str "約翰福音 3:16"), .jstr (str "詩篇 23:1")]),
         some (.jstr (str "平安"))⟩ uiSample).toOption.getD
        ⟨[], [], [], .jnull⟩).biblicalReferences.length ∧
    (lt5 (lengthProp (jor (some (.jarr [.jstr (str "約翰福音 3:16"), .jstr (str "詩篇 23:1")]))
        (.jarr [.jstr (str "約翰福音 3:16")]))) = true →
      ((validateAndEnhanceResponse
        ⟨some (.jstr (str "愛")), some (.jstr (str "主")),
         some (.jarr [.jstr (str "約翰福音 3:16"), .jstr (str "詩篇 23:1")]),
         some (.jstr (str "平安"))⟩ uiSample).toOption.getD
        ⟨[], [], [], .jnull⟩).biblicalReferences.length ≤ 7) :=
  C2_thresholds
    ⟨some (.jstr (str "愛")), some (.jstr (str "主")),
     some (.jarr [.jstr (str "約翰福音 3:16"), .jstr (str "詩篇 23:1")]),
     some (.jstr (str "平安"))⟩ uiSample _ (by rfl)

set_option maxRecDepth 8000 in
/-- C2 counterexample: eight incoming references sail through uncapped, and
a one-character letter ends far below the 350-character floor. -/
theorem C2_counterexample :
    (validateAndEnhanceResponse ⟨some (.jstr (str "短")), none, some (.jarr c2refs8), none⟩
      uiSample).isOk = true ∧
    ((validateAndEnhanceResponse ⟨some (.jstr (str "短")), none, some (.jarr c2refs8), none⟩
      uiSample).toOption.getD ⟨[], [], [], .jnull⟩).biblicalReferences.length = 8 ∧
    ((validateAndEnhanceResponse ⟨some (.jstr (str "短")), none, some (.jarr c2refs8), none⟩
      uiSample).toOption.getD ⟨[], [], [], .jnull⟩).jesusLetter.length < 350 := by
  refine ⟨by decide, by decide, by decide⟩

/-- C6: the reference list built by the top-up branch
(`enhanceBiblicalReferences`) carries pairwise-distinct citation keys —
duplicates among the incoming references are dropped by the `Set`-based
dedup.  The frozen claim promised this for every reply of the enhancement
stage; the counterexample shows a list arriving with five entries —
duplicates included — skips the dedup branch entirely and is returned with
its duplicate citations intact. -/
theorem C6_distinct_keys (r0 : JVal) (ui : UserInput) (out : List JVal)
    (h : enhanceBiblicalReferences r0 ui = .ok out) : keysDistinctB out = true := by
  unfold enhanceBiblicalReferences at h
  obtain ⟨ex, hex, h⟩ := except_bind_ok _ _ _ h
  obtain ⟨⟨seen1, uniq1⟩, hu1, h⟩ := except_bind_ok _ _ _ h
  have h3 : (if uniq1.length < 5 then
        uniqFold refsFallback seen1 uniq1 >>= fun y =>
          Except.ok (y.2.take 7)
      else (Except.ok (seen1, uniq1) : Except Str (List (Option JVal) × List JVal)) >>=
        fun y => Except.ok (y.2.take 7)) = Except.ok out := h
  have hd1 := uniqFold_distinct _ _ _ _ hu1
    (fun a ha => absurd ha (List.not_mem_nil a)) List.Pairwise.nil
  by_cases h5 : uniq1.length < 5
  · rw [if_pos h5] at h3
    cases hq : uniqFold refsFallback seen1 uniq1 with
    | error e =>
      rw [hq] at h3
      exact absurd h3 (by simp [Bind.bind, Except.bind])
    | ok q =>
      rw [hq] at h3
      have h4 : Except.ok (q.2.take 7) = Except.ok out := h3
      injection h4 with h42
      have hd2 := (uniqFold_distinct _ _ _ _ hq hd1.1 hd1.2).2
      apply keysDistinctB_of_pairwise
      rw [← h42]
      exact hd2.sublist (List.take_sublist 7 q.2)
  · rw [if_neg h5] at h3
    have h4 : Except.ok (uniq1.take 7) = Except.ok out := h3
    injection h4 with h42
    apply keysDistinctB_of_pairwise
    rw [← h42]
    exact hd1.2.sublist (List.take_sublist 7 uniq1)

set_option maxRecDepth 4000 in
/-- C6 witness: a duplicated pair of references entering the top-up branch
leaves with pairwise-distinct citation keys. -/
theorem C6_witness :
    keysDistinctB ((enhanceBiblicalReferences
      (.jarr [.jstr (str "約翰福音 3:16"), .jstr (str "約翰福音 3:16")])
      uiSample).toOption.getD []) = true :=
  C6_distinct_keys (.jarr [.jstr (str "約翰福音 3:16"), .jstr (str "約翰福音 3:16")])
    uiSample _ (by rfl)

set_option maxRecDepth 8000 in
/-- C6 counterexample: five references with a duplicated citation skip the
top-up branch, and the enhancement stage returns them — duplicate and all. -/
theorem C6_counterexample :
    (validateAndEnhanceResponse ⟨none, none, some (.jarr c6dupRefs), none⟩
      uiSample).isOk = true ∧
    keysDistinctB ((validateAndEnhanceResponse ⟨none, none, some (.jarr c6dupRefs), none⟩
      uiSample).toOption.getD ⟨[], [], [], .jnull⟩).biblicalReferences = false := by
  refine ⟨by decide, by decide⟩

/-- C10: every entry of the returned reference list is a record with the
five canonical fields verse, text, context, meaning and application in
order, and the four non-verse values are truthy (missing or falsy supplied
fields are replaced by canned string defaults; bare strings are wrapped
with the string as verse).  The frozen claim promised all five values as
non-empty strings; the counterexample shows a truthy non-string supplied
field — a numeric verse — survives the normalization as-is. -/
theorem C10_reference_records (resp : RespIn) (ui : UserInput) (out : EnhOut)
    (hok : validateAndEnhanceResponse resp ui = .ok out) :
    out.biblicalReferences.all refShapeB = true := by
  unfold validateAndEnhanceResponse at hok
  obtain ⟨l1, hA, hok⟩ := except_bind_ok _ _ _ hok
  obtain ⟨p1, hB, hok⟩ := except_bind_ok _ _ _ hok
  obtain ⟨r1, hC, hok⟩ := except_bind_ok _ _ _ hok
  obtain ⟨r2, hD, hok⟩ := except_bind_ok _ _ _ hok
  injection hok with hout
  subst hout
  show r2.all refShapeB = true
  rw [List.all_eq_true]
  intro w hw
  cases r1 with
  | jarr xs =>
    have hm : mapRefs xs = .ok r2 := hD
    obtain ⟨r, hr, hwr⟩ := mapRefs_mem xs r2 hm w hw
    exact wrapRef_shape r w hwr
  | jstr s => exact absurd hD (by simp [mapWrap])
  | jnum n => exact absurd hD (by simp [mapWrap])
  | jbool b => exact absurd hD (by simp [mapWrap])
  | jnull => exact absurd hD (by simp [mapWrap])
  | jobj fs => exact absurd hD (by simp [mapWrap])

set_option maxRecDepth 8000 in
/-- C10 witness: a reply mixing a bare-string reference and a one-field
record comes back with every entry in canonical five-field shape. -/
theorem C10_witness :
    ((validateAndEnhanceResponse
      ⟨some (.jstr (str "光")), some (.jstr (str "主")),
       some (.jarr [.jstr (str "詩篇 1:1"), .jobj [(str "verse", .jstr (str "箴言 3:5"))]]),
       some (.jstr (str "信"))⟩ uiSample).toOption.getD
      ⟨[], [], [], .jnull⟩).biblicalReferences.all refShapeB = true :=
  C10_reference_records
    ⟨some (.jstr (str "光")), some (.jstr (str "主")),
     some (.jarr [.jstr (str "詩篇 1:1"), .jobj [(str "verse", .jstr (str "箴言 3:5"))]]),
     some (.jstr (str "信"))⟩ uiSample _ (by rfl)

set_option maxRecDepth 8000 in
/-- C10 counterexample: a record supplying the number 7 as its verse keeps
that number through normalization, so not every field of every entry is a
non-empty string. -/
theorem C10_counterexample :
    (validateAndEnhanceResponse ⟨none, none, some (.jarr c10refs), none⟩
      uiSample).isOk = true ∧
    verseIsStrB (((validateAndEnhanceResponse ⟨none, none, some (.jarr c10refs), none⟩
      uiSample).toOption.getD ⟨[], [], [], .jnull⟩).biblicalReferences.getD 0 .jnull)
      = false := by
  refine ⟨by decide, by decide⟩

end JL
